import Mathlib

/-!
# Gerador_Senha_Go: a shallow embedding of `main.go`

The program asks for a password length, repeats the question until the value
read is at least 8, and prints a password made by `generatePassword`.

Modelling conventions.

* Go's `int` is taken to be 64 bits wide. Integers are `Int`; the one
  subtraction of the program, `length - len(mandatory)`, is wrapped to the
  `int64` range by `wrapInt64`.
* A Go `string` / `[]byte` is a `List Char`. Every character of the four
  alphabets is ASCII, so bytes and characters coincide there.
* The process-wide generator of `math/rand` is an explicit state `σ` together
  with a bounded draw `draw n s`, standing for one call that asks for a number
  below `n` in state `s` and returns the number and the next state. Nothing is
  assumed about `draw` in the definitions; `InRange draw` is the contract of
  `math/rand` (the number returned lies in `[0, n)`).
* A run-time panic is the `error` branch of `Except Panic`.
* Allocation is bounded twice. The runtime refuses a slice longer than its
  allocation limit `maxAlloc` (2^48 bytes on 64-bit platforms) with the panic
  "makeslice: len out of range". Below that limit the machine decides: the
  parameter `memory` is the largest size of the filler slice for which the
  runtime obtains the memory that `generatePassword` needs (the slice made by
  `make` and the larger array to which `append` moves it); beyond it the
  program stops with "out of memory".
* `rand.Intn` and `rand.Shuffle` are functions of Go's standard library, not of
  this repository; they are modelled after the library (`Intn` panics for a
  non-positive bound, `Shuffle` is the Fisher-Yates loop
  `for i := n-1; i > 0; i-- { j := draw(i+1); swap(i, j) }`).
* Console input is the sequence of outcomes of the successive `fmt.Scanf`
  calls: `some v` when the call stored the integer `v`, `none` when it failed
  and left the variable as it was.
-/

namespace GeradorSenha

/-! ## Machine integers and panics -/

/-- Largest value of a 64-bit Go `int`. -/
def maxInt64 : Int := 2 ^ 63 - 1

/-- Smallest value of a 64-bit Go `int`. -/
def minInt64 : Int := -(2 ^ 63)

/-- Two's-complement wrap of a mathematical integer to the `int64` range. -/
def wrapInt64 (x : Int) : Int := (x + 2 ^ 63) % 2 ^ 64 - 2 ^ 63

/-- The panics that the statements of `generatePassword` can raise. -/
inductive Panic where
  /-- The runtime's "index out of range" on `s[k]`. -/
  | indexOutOfRange
  /-- The runtime's "makeslice: len out of range" on `make([]byte, n)`. -/
  | makesliceLenOutOfRange
  /-- The runtime's "growslice: len out of range" on `append`. -/
  | growsliceLenOutOfRange
  /-- The library's `panic("invalid argument to Intn")`. -/
  | invalidArgumentToIntn
  /-- The runtime's "fatal error: runtime: out of memory". -/
  | outOfMemory
  deriving DecidableEq, Repr

/-- Whether the panic is raised by the Go runtime itself (a `runtime.Error`)
rather than by an explicit `panic(...)` statement of a guard. -/
def Panic.raisedByRuntime : Panic → Bool
  | .indexOutOfRange => true
  | .makesliceLenOutOfRange => true
  | .growsliceLenOutOfRange => true
  | .invalidArgumentToIntn => false
  | .outOfMemory => true

/-! ## The random source -/

/-- One bounded draw of the generator: bound and state in, number and next
state out. -/
abbrev Draw (σ : Type) := Nat → σ → Nat × σ

/-- Contract of `math/rand`: a draw below a positive bound `n` lies in `[0, n)`. -/
def InRange {σ : Type} (draw : Draw σ) : Prop :=
  ∀ n s, 0 < n → (draw n s).1 < n

/-- The library function `rand.Intn(n)`: panics when `n <= 0`, otherwise one
bounded draw. -/
def Intn {σ : Type} (draw : Draw σ) (n : Nat) (s : σ) : Except Panic (Nat × σ) :=
  if n = 0 then .error .invalidArgumentToIntn else .ok (draw n s)

/-! ## Slices -/

/-- The indexing expression `s[k]` with its bounds check. -/
def index {α : Type} (s : List α) (k : Nat) : Except Panic α :=
  match s[k]? with
  | some c => .ok c
  | none => .error .indexOutOfRange

/-- The allocation limit of the Go runtime on 64-bit platforms, in bytes. -/
def maxAlloc : Int := 2 ^ 48

/-- The allocation `make([]byte, n)` of the filler slice on a machine with the
given `memory` (the largest filler size whose allocations succeed there):
panics with "makeslice: len out of range" on a negative length and on a length
above the allocation limit, stops with "out of memory" when `n` is more than
the machine can provide, and otherwise gives a slice of `n` zero bytes. -/
def makeSlice (memory : Nat) (n : Int) : Except Panic (List Char) :=
  if n < 0 ∨ maxAlloc < n then .error .makesliceLenOutOfRange
  else if (memory : Int) < n then .error .outOfMemory
  else .ok (List.replicate n.toNat (Char.ofNat 0))

/-- The call `append(p, q...)`: panics when the new length does not fit an
`int`. -/
def appendSlice {α : Type} (p q : List α) : Except Panic (List α) :=
  if maxInt64 < ((p.length + q.length : Nat) : Int) then .error .growsliceLenOutOfRange
  else .ok (p ++ q)

/-- The closure passed to `rand.Shuffle`:
`password[i], password[j] = password[j], password[i]`. Both operands are read
(with their bounds checks) before either position is written. -/
def swap {α : Type} (p : List α) (i j : Nat) : Except Panic (List α) :=
  match index p j with
  | .error e => .error e
  | .ok vj =>
    match index p i with
    | .error e => .error e
    | .ok vi => .ok ((p.set i vj).set j vi)

/-! ## `generatePassword` -/

/-- Lowercase letters. -/
def lowerCase : List Char := "abcdefghijklmnopqrstuvwxyz".toList

/-- Uppercase letters. -/
def upperCase : List Char := "ABCDEFGHIJKLMNOPQRSTUVWXYZ".toList

/-- Digits. -/
def numbers : List Char := "0123456789".toList

/-- Special characters. -/
def special : List Char := "!@#$%^&*()+?><:\x7b\x7d[]".toList

/-- The concatenation `lowerCase + upperCase + numbers + special`. -/
def allChars : List Char := lowerCase ++ upperCase ++ numbers ++ special

/-- The composite literal `mandatory := []byte{upperCase[rand.Intn(len(upperCase))],
numbers[rand.Intn(len(numbers))], special[rand.Intn(len(special))]}`, whose
elements are evaluated from left to right. -/
def mandatory {σ : Type} (draw : Draw σ) (s : σ) : Except Panic (List Char × σ) :=
  match Intn draw upperCase.length s with
  | .error e => .error e
  | .ok (k1, s1) =>
    match index upperCase k1 with
    | .error e => .error e
    | .ok u =>
      match Intn draw numbers.length s1 with
      | .error e => .error e
      | .ok (k2, s2) =>
        match index numbers k2 with
        | .error e => .error e
        | .ok d =>
          match Intn draw special.length s2 with
          | .error e => .error e
          | .ok (k3, s3) =>
            match index special k3 with
            | .error e => .error e
            | .ok x => .ok ([u, d, x], s3)

/-- The loop `for i := range password { password[i] = allChars[rand.Intn(len(allChars))] }`
from position `i` on, with `todo` iterations left. -/
def fillFrom {σ : Type} (draw : Draw σ) :
    Nat → Nat → List Char → σ → Except Panic (List Char × σ)
  | 0, _, password, s => .ok (password, s)
  | todo + 1, i, password, s =>
    match Intn draw allChars.length s with
    | .error e => .error e
    | .ok (k, s1) =>
      match index allChars k with
      | .error e => .error e
      | .ok c => fillFrom draw todo (i + 1) (password.set i c) s1

/-- The loop of `rand.Shuffle`, entered with loop variable `i`:
`for ; i > 0; i-- { j := draw(i+1); swap(i, j) }`. -/
def shuffleFrom {σ α : Type} (draw : Draw σ) :
    Nat → List α → σ → Except Panic (List α × σ)
  | 0, p, s => .ok (p, s)
  | i + 1, p, s =>
    match swap p (i + 1) (draw (i + 2) s).1 with
    | .error e => .error e
    | .ok p1 => shuffleFrom draw i p1 (draw (i + 2) s).2

/-- The library function `rand.Shuffle(n, swap)` applied to the slice `p`; the
loop variable starts at `n - 1`. -/
def Shuffle {σ α : Type} (draw : Draw σ) (n : Nat) (p : List α) (s : σ) :
    Except Panic (List α × σ) :=
  shuffleFrom draw (n - 1) p s

/-- The function `generatePassword(length int) string`, with the generator
state passed in and out, on a machine that can provide `memory` bytes. -/
def generatePassword {σ : Type} (memory : Nat) (draw : Draw σ) (s : σ) (length : Int) :
    Except Panic (List Char × σ) :=
  match mandatory draw s with
  | .error e => .error e
  | .ok (m, s1) =>
    match makeSlice memory (wrapInt64 (length - (m.length : Int))) with
    | .error e => .error e
    | .ok password =>
      match fillFrom draw password.length 0 password s1 with
      | .error e => .error e
      | .ok (filled, s2) =>
        match appendSlice filled m with
        | .error e => .error e
        | .ok whole => Shuffle draw whole.length whole s2

/-! ## `main` -/

/-- What the program does to the outside world. -/
inductive Effect where
  /-- Text written to standard output. -/
  | print (text : String)
  /-- The call `time.Sleep(seconds * time.Second)`. -/
  | sleep (seconds : Nat)
  deriving DecidableEq, Repr

/-- The function `clearScreenANSI`: one `fmt.Print` of the two escape sequences. -/
def clearScreenANSI : List Effect := [.print "\x1b[2J\x1b[H"]

/-- The text of the question. -/
def promptText : String := "Digite com quantos caracteres vai querer a sua senha: "

/-- The text of the warning; `fmt.Println` appends the line break. -/
def warningText : String := "A senha precisa ter no mínimo 8 caracteres"

/-- The call `fmt.Scanf("%d", &tamanhoSenha)` followed by `fmt.Scanln()`: a
successful read stores the value, a failed one leaves the variable unchanged. -/
def Scanf (outcome : Option Int) (tamanhoSenha : Int) : Int :=
  match outcome with
  | some v => v
  | none => tamanhoSenha

/-- State of the validation loop after a finite sequence of reads. -/
inductive LoopResult where
  /-- The reads are used up and the loop is waiting for the next one. -/
  | asking (tamanhoSenha : Int) (out : List Effect)
  /-- The loop was left by `break`; `rest` are the reads not consumed. -/
  | accepted (tamanhoSenha : Int) (out : List Effect) (rest : List (Option Int))
  deriving DecidableEq, Repr

/-- The loop `for { ... }` of `main`, run on the given read outcomes, from the
current value of `tamanhoSenha` and the output produced so far. -/
def validationLoop : List (Option Int) → Int → List Effect → LoopResult
  | [], tamanhoSenha, out => .asking tamanhoSenha (out ++ [.print promptText])
  | outcome :: rest, tamanhoSenha, out =>
    if Scanf outcome tamanhoSenha < 8 then
      validationLoop rest (Scanf outcome tamanhoSenha)
        (out ++ [.print promptText] ++
          [.print (warningText ++ "\n"), .sleep 3] ++ clearScreenANSI)
    else
      .accepted (Scanf outcome tamanhoSenha) (out ++ [.print promptText]) rest

/-- The argument with which `main` calls `generatePassword`, when the loop is
left within the given reads. -/
def mainCallArgument (inputs : List (Option Int)) : Option Int :=
  match validationLoop inputs 0 [] with
  | .asking _ _ => none
  | .accepted tamanhoSenha _ _ => some tamanhoSenha

/-- Specification side: the characters that `count` successive draws below
`len(allChars)` select from `allChars`, with the generator state after them. -/
def drawnFiller {σ : Type} (draw : Draw σ) : Nat → σ → List Char × σ
  | 0, s => ([], s)
  | count + 1, s =>
    ((allChars.getD (draw allChars.length s).1 'a') ::
        (drawnFiller draw count (draw allChars.length s).2).1,
      (drawnFiller draw count (draw allChars.length s).2).2)

/-- A concrete generator used to run the model: the state is a counter, and a
draw below `n` returns the counter reduced modulo `n`. -/
def counterDraw : Draw Nat := fun n s => (s % n, s + 1)

/-- Specification side: the output of `rounds` rejected reads, each being the
question, the warning line, the three-second pause and the screen clearing. -/
def rejectionRounds : Nat → List Effect
  | 0 => []
  | rounds + 1 =>
    [.print promptText, .print (warningText ++ "\n"), .sleep 3] ++ clearScreenANSI ++
      rejectionRounds rounds

/-- A generator that replays a prescribed list of numbers: each draw returns
the head of the list, whatever the bound, and 0 once the list is used up. -/
def replayDraw : Draw (List Nat) := fun _ s =>
  match s with
  | [] => (0, [])
  | c :: cs => (c, cs)

/-- The swap choices admissible for the loop of `rand.Shuffle` entered with loop
variable `i`: one index `j` with `0 <= j <= i` for each of `i, i-1, ..., 1`, in
this order. -/
def validChoices : Nat → List Nat → Bool
  | 0, [] => true
  | 0, _ :: _ => false
  | _ + 1, [] => false
  | i + 1, j :: js => decide (j ≤ i + 1) && validChoices i js

/-- The list of all admissible sequences of swap choices for the loop of
`rand.Shuffle` entered with loop variable `i`. -/
def choiceLists : Nat → List (List Nat)
  | 0 => [[]]
  | i + 1 =>
    ((List.range (i + 2)).map (fun j => (choiceLists i).map (fun js => j :: js))).flatten

/-- An operand of `fmt.Print`: a string, or a value of another type given by
its default rendering. -/
inductive Operand where
  /-- An operand of type `string`. -/
  | str (text : String)
  /-- An operand of any other type. -/
  | other (text : String)
  deriving DecidableEq, Repr

/-- The text of an operand. -/
def Operand.text : Operand → String
  | .str t => t
  | .other t => t

/-- Whether the operand is a string. -/
def Operand.isString : Operand → Bool
  | .str _ => true
  | .other _ => false

/-- The text written by the library function `fmt.Print`: the operands in
their default format, with a space between two operands when neither is a
string, and no line break at the end. -/
def Print : List Operand → String
  | [] => ""
  | [a] => a.text
  | a :: b :: rest =>
    a.text ++ (if a.isString || b.isString then "" else " ") ++ Print (b :: rest)

/-- How a run of `main` on finitely many reads stands at its end. -/
inductive MainResult (σ : Type) where
  /-- The reads are used up and the loop is waiting for the next one. -/
  | asking (out : List Effect)
  /-- The call of `generatePassword` panicked. -/
  | panicked (out : List Effect) (e : Panic)
  /-- The function returned, leaving the generator in state `s`. -/
  | returned (out : List Effect) (s : σ)

/-- The function `main`, on a machine that can provide `memory` bytes and with
the process-wide generator in state `s` when the program starts:
`tamanhoSenha := 0`, the validation loop, the call
`generatePassword(tamanhoSenha)`, `clearScreenANSI()` and
`fmt.Print("A sua senha é: ", password)`. -/
def main {σ : Type} (memory : Nat) (draw : Draw σ) (s : σ) (inputs : List (Option Int)) :
    MainResult σ :=
  match validationLoop inputs 0 [] with
  | .asking _ out => .asking out
  | .accepted tamanhoSenha out _ =>
    match generatePassword memory draw s tamanhoSenha with
    | .error e => .panicked out e
    | .ok (password, s1) =>
      .returned
        (out ++ clearScreenANSI ++
          [.print (Print [.str "A sua senha é: ", .str (String.mk password)])]) s1

/-- A generator wrapped so that it keeps a log of the calls made on it: each
bounded draw appends the bound asked and the number returned. -/
def recordDraw {σ : Type} (draw : Draw σ) : Draw (σ × List (Nat × Nat)) :=
  fun n st => ((draw n st.1).1, ((draw n st.1).2, st.2 ++ [(n, (draw n st.1).1)]))

/-- Specification side: the numbers returned by successive draws with the given
bounds, and the generator state after them. -/
def drawSequence {σ : Type} (draw : Draw σ) : List Nat → σ → List Nat × σ
  | [], s => ([], s)
  | n :: ns, s =>
    ((draw n s).1 :: (drawSequence draw ns (draw n s).2).1,
      (drawSequence draw ns (draw n s).2).2)

/-- Specification side: the bounds of the swap choices of a shuffle entered
with loop variable `i`, namely `i+1, i, ..., 2`. -/
def shuffleBounds : Nat → List Nat
  | 0 => []
  | i + 1 => (i + 2) :: shuffleBounds i

/-- Specification side: the bounds of the draws of `generatePassword(length)`
in order: the three mandatory draws, `length - 3` filler draws, and the
`length - 1` swap choices. -/
def requestedBounds (length : Nat) : List Nat :=
  [upperCase.length, numbers.length, special.length] ++
    List.replicate (length - 3) allChars.length ++ shuffleBounds (length - 1)

/-- Specification side: whether a read is rejected by the loop when the stored
length is below 8: a failed read, or a value below 8. -/
def isRejected : Option Int → Bool
  | none => true
  | some v => decide (v < 8)

/-! ## Auxiliary facts -/

theorem counterDraw_inRange : InRange counterDraw := by
  intro n s hn
  exact Nat.mod_lt s hn

theorem allChars_length : allChars.length = 81 := by decide

theorem upperCase_length : upperCase.length = 26 := by decide

theorem numbers_length : numbers.length = 10 := by decide

theorem special_length : special.length = 19 := by decide

theorem wrapInt64_of_range {x : Int} (h1 : minInt64 ≤ x) (h2 : x ≤ maxInt64) :
    wrapInt64 x = x := by
  unfold wrapInt64
  unfold minInt64 at h1
  unfold maxInt64 at h2
  omega

theorem index_of_lt {α : Type} (s : List α) (k : Nat) (h : k < s.length) :
    index s k = .ok s[k] := by
  simp [index, List.getElem?_eq_getElem h]

theorem index_of_le {α : Type} (s : List α) (k : Nat) (h : s.length ≤ k) :
    index s k = .error .indexOutOfRange := by
  simp [index, List.getElem?_eq_none h]

theorem Intn_of_pos {σ : Type} (draw : Draw σ) (n : Nat) (s : σ) (h : 0 < n) :
    Intn draw n s = .ok (draw n s) := by
  simp [Intn, Nat.pos_iff_ne_zero.mp h]

theorem swap_of_lt {α : Type} (p : List α) (i j : Nat) (hi : i < p.length)
    (hj : j < p.length) : swap p i j = .ok ((p.set i p[j]).set j p[i]) := by
  simp [swap, index_of_lt p i hi, index_of_lt p j hj]

theorem set_set_eq_ofFn {α : Type} (p : List α) (i j : Nat) (hi : i < p.length)
    (hj : j < p.length) :
    (p.set i p[j]).set j p[i] =
      List.ofFn (fun k : Fin p.length => p.get (Equiv.swap ⟨i, hi⟩ ⟨j, hj⟩ k)) := by
  apply List.ext_getElem
  · simp
  · intro k h1 h2
    have hk : k < p.length := by simpa using h1
    rw [List.getElem_ofFn, List.getElem_set, List.getElem_set]
    by_cases hjk : j = k
    · subst hjk
      simp [Equiv.swap_apply_right]
    · by_cases hik : i = k
      · subst hik
        simp [hjk, Equiv.swap_apply_left]
      · have hne1 : (⟨k, hk⟩ : Fin p.length) ≠ ⟨i, hi⟩ := by
          intro h; exact hik (Fin.mk.inj h).symm
        have hne2 : (⟨k, hk⟩ : Fin p.length) ≠ ⟨j, hj⟩ := by
          intro h; exact hjk (Fin.mk.inj h).symm
        simp [hjk, hik, Equiv.swap_apply_of_ne_of_ne hne1 hne2]

theorem set_set_perm_self {α : Type} (p : List α) (i j : Nat) (hi : i < p.length)
    (hj : j < p.length) : List.Perm ((p.set i p[j]).set j p[i]) p := by
  rw [set_set_eq_ofFn p i j hi hj]
  have h := Equiv.Perm.ofFn_comp_perm (Equiv.swap (⟨i, hi⟩ : Fin p.length) ⟨j, hj⟩) p.get
  have h2 : List.ofFn p.get = p := List.ofFn_get p
  rw [h2] at h
  exact h

theorem drawnFiller_length {σ : Type} (draw : Draw σ) (count : Nat) (s : σ) :
    (drawnFiller draw count s).1.length = count := by
  induction count generalizing s with
  | zero => rfl
  | succ n ih => simp [drawnFiller, ih]

theorem drawnFiller_mem {σ : Type} (draw : Draw σ) (hd : InRange draw) (count : Nat)
    (s : σ) : ∀ c ∈ (drawnFiller draw count s).1, c ∈ allChars := by
  induction count generalizing s with
  | zero => intro c hc; simp [drawnFiller] at hc
  | succ n ih =>
    intro c hc
    simp only [drawnFiller, List.mem_cons] at hc
    rcases hc with hc | hc
    · have hk : (draw allChars.length s).1 < allChars.length :=
        hd _ _ (by rw [allChars_length]; decide)
      rw [hc, List.getD_eq_getElem _ _ hk]
      exact List.getElem_mem hk
    · exact ih _ c hc

theorem fillFrom_eq {σ : Type} (draw : Draw σ) (hd : InRange draw) (todo : Nat) :
    ∀ (i : Nat) (password : List Char) (s : σ), i + todo = password.length →
      fillFrom draw todo i password s =
        .ok (password.take i ++ (drawnFiller draw todo s).1, (drawnFiller draw todo s).2) := by
  induction todo with
  | zero =>
    intro i password s h
    have hle : password.length ≤ i := by omega
    simp [fillFrom, drawnFiller, List.take_of_length_le hle]
  | succ n ih =>
    intro i password s h
    have hpos : 0 < allChars.length := by rw [allChars_length]; decide
    have hk : (draw allChars.length s).1 < allChars.length := hd _ _ hpos
    have hi : i < password.length := by omega
    simp only [fillFrom, Intn_of_pos draw _ s hpos, index_of_lt allChars _ hk]
    rw [ih (i + 1) _ _ (by simp; omega)]
    simp only [drawnFiller, List.getD_eq_getElem _ _ hk]
    congr 2
    rw [List.take_succ, List.getElem?_set_self hi]
    have htake : (password.set i allChars[(draw allChars.length s).1]).take i =
        password.take i := by
      rw [List.set_take, List.set_eq_of_length_le]
      simp
    simp [htake]

theorem mandatory_eq {σ : Type} (draw : Draw σ) (hd : InRange draw) (s : σ) :
    ∃ u d x s1, mandatory draw s = .ok ([u, d, x], s1) ∧
      u ∈ upperCase ∧ d ∈ numbers ∧ x ∈ special := by
  have h1 : 0 < upperCase.length := by rw [upperCase_length]; decide
  have h2 : 0 < numbers.length := by rw [numbers_length]; decide
  have h3 : 0 < special.length := by rw [special_length]; decide
  have k1 := hd _ s h1
  have k2 := hd _ (draw upperCase.length s).2 h2
  have k3 := hd _ (draw numbers.length (draw upperCase.length s).2).2 h3
  refine ⟨upperCase[(draw upperCase.length s).1], numbers[(draw numbers.length _).1],
    special[(draw special.length _).1],
    (draw special.length (draw numbers.length (draw upperCase.length s).2).2).2, ?_,
    List.getElem_mem k1, List.getElem_mem k2, List.getElem_mem k3⟩
  simp only [mandatory, Intn_of_pos draw _ _ h1, Intn_of_pos draw _ _ h2,
    Intn_of_pos draw _ _ h3, index_of_lt _ _ k1, index_of_lt _ _ k2, index_of_lt _ _ k3]

theorem shuffleFrom_perm {σ α : Type} (draw : Draw σ) (hd : InRange draw) (i : Nat) :
    ∀ (p : List α) (s : σ), i < p.length ∨ i = 0 →
      ∃ q s1, shuffleFrom draw i p s = .ok (q, s1) ∧ List.Perm q p := by
  induction i with
  | zero => intro p s _; exact ⟨p, s, rfl, List.Perm.refl p⟩
  | succ n ih =>
    intro p s h
    have hi : n + 1 < p.length := by omega
    have hj0 : (draw (n + 2) s).1 < n + 2 := hd _ _ (by omega)
    have hj : (draw (n + 2) s).1 < p.length := by omega
    have hperm := set_set_perm_self p (n + 1) _ hi hj
    obtain ⟨q, s1, hq, hqp⟩ := ih ((p.set (n + 1) p[(draw (n + 2) s).1]).set
      (draw (n + 2) s).1 p[n + 1]) (draw (n + 2) s).2 (by left; simp; omega)
    refine ⟨q, s1, ?_, hqp.trans hperm⟩
    simp only [shuffleFrom, swap_of_lt p _ _ hi hj]
    exact hq

theorem makeSlice_ok (memory : Nat) (n : Int) (h0 : 0 ≤ n) (hlim : n ≤ maxAlloc)
    (hmem : n ≤ (memory : Int)) :
    makeSlice memory n = .ok (List.replicate n.toNat (Char.ofNat 0)) := by
  have h1 : ¬ (n < 0 ∨ maxAlloc < n) := by omega
  have h2 : ¬ ((memory : Int) < n) := by omega
  simp only [makeSlice, if_neg h1, if_neg h2]

theorem makeSlice_cases (memory : Nat) (n : Int) :
    (makeSlice memory n = .error .makesliceLenOutOfRange ∧ (n < 0 ∨ maxAlloc < n)) ∨
    (makeSlice memory n = .error .outOfMemory ∧ 0 ≤ n ∧ n ≤ maxAlloc ∧ (memory : Int) < n) ∨
    (makeSlice memory n = .ok (List.replicate n.toNat (Char.ofNat 0)) ∧
      0 ≤ n ∧ n ≤ maxAlloc ∧ n ≤ (memory : Int)) := by
  by_cases h1 : n < 0 ∨ maxAlloc < n
  · left
    exact ⟨by simp only [makeSlice, if_pos h1], h1⟩
  · by_cases h2 : (memory : Int) < n
    · right; left
      exact ⟨by simp only [makeSlice, if_neg h1, if_pos h2], by omega, by omega, h2⟩
    · right; right
      exact ⟨by simp only [makeSlice, if_neg h1, if_neg h2], by omega, by omega, by omega⟩

theorem maxAlloc_lt_maxInt64 : maxAlloc + 3 ≤ maxInt64 := by decide

theorem generatePassword_eq {σ : Type} (memory : Nat) (draw : Draw σ) (hd : InRange draw)
    (s : σ) (length : Int) (h3 : 3 ≤ length) (hlim : length - 3 ≤ maxAlloc)
    (hmem : length - 3 ≤ (memory : Int)) :
    ∃ u d x s1 pw s2, mandatory draw s = .ok ([u, d, x], s1) ∧
      u ∈ upperCase ∧ d ∈ numbers ∧ x ∈ special ∧
      generatePassword memory draw s length = .ok (pw, s2) ∧
      List.Perm pw ((drawnFiller draw (length - 3).toNat s1).1 ++ [u, d, x]) := by
  obtain ⟨u, d, x, s1, hm, hu, hdg, hx⟩ := mandatory_eq draw hd s
  have hmax : length ≤ maxInt64 := by
    have := maxAlloc_lt_maxInt64
    omega
  have hwrap : wrapInt64 (length - 3) = length - 3 :=
    wrapInt64_of_range (by unfold minInt64; omega) (by omega)
  have hfill := fillFrom_eq draw hd (length - 3).toNat 0
    (List.replicate (length - 3).toNat (Char.ofNat 0)) s1 (by simp)
  have hfit : ¬ (maxInt64 <
      ((((drawnFiller draw (length - 3).toNat s1).1).length + [u, d, x].length : Nat) : Int)) := by
    rw [drawnFiller_length]
    simp only [List.length_cons, List.length_nil]
    unfold maxInt64 at hmax ⊢
    omega
  obtain ⟨q, s2, hq, hperm⟩ := shuffleFrom_perm draw hd
    (((drawnFiller draw (length - 3).toNat s1).1 ++ [u, d, x]).length - 1)
    ((drawnFiller draw (length - 3).toNat s1).1 ++ [u, d, x])
    (drawnFiller draw (length - 3).toNat s1).2 (by left; simp)
  refine ⟨u, d, x, s1, q, s2, hm, hu, hdg, hx, ?_, hperm⟩
  simp only [generatePassword, hm, List.length_cons, List.length_nil]
  have hcast : (((0 + 1 + 1 + 1 : Nat) : Int)) = 3 := by norm_num
  rw [hcast, hwrap]
  simp only [makeSlice_ok memory (length - 3) (by omega) hlim hmem, List.length_replicate,
    hfill, List.take_zero, List.nil_append, appendSlice, if_neg hfit, Shuffle]
  exact hq

theorem upperCase_not_numbers : ∀ c ∈ upperCase, c ∉ numbers ∧ c ∉ special := by decide

theorem numbers_not_upperCase : ∀ c ∈ numbers, c ∉ upperCase ∧ c ∉ special := by decide

theorem special_not_upperCase : ∀ c ∈ special, c ∉ upperCase ∧ c ∉ numbers := by decide

theorem upperCase_not_lowerCase : ∀ c ∈ upperCase, c ∉ lowerCase := by decide

theorem numbers_not_lowerCase : ∀ c ∈ numbers, c ∉ lowerCase := by decide

theorem special_not_lowerCase : ∀ c ∈ special, c ∉ lowerCase := by decide

theorem allChars_nodup : allChars.Nodup := by decide

theorem lowerCase_not_others :
    ∀ c ∈ lowerCase, c ∉ upperCase ∧ c ∉ numbers ∧ c ∉ special := by decide

theorem index_cases {α : Type} (l : List α) (k : Nat) :
    index l k = .error .indexOutOfRange ∨ ∃ c, index l k = .ok c := by
  unfold index
  cases l[k]? with
  | none => exact Or.inl rfl
  | some c => exact Or.inr ⟨c, rfl⟩

theorem swap_cases {α : Type} (p : List α) (i j : Nat) :
    swap p i j = .error .indexOutOfRange ∨ ∃ q, swap p i j = .ok q := by
  unfold swap
  rcases index_cases p j with hj | ⟨vj, hj⟩
  · rw [hj]; exact Or.inl rfl
  · rcases index_cases p i with hi | ⟨vi, hi⟩
    · rw [hj, hi]; exact Or.inl rfl
    · rw [hj, hi]; exact Or.inr ⟨_, rfl⟩

theorem mandatory_cases {σ : Type} (draw : Draw σ) (s : σ) :
    mandatory draw s = .error .indexOutOfRange ∨
      ∃ u d x s1, mandatory draw s = .ok ([u, d, x], s1) := by
  have h1 : 0 < upperCase.length := by rw [upperCase_length]; decide
  have h2 : 0 < numbers.length := by rw [numbers_length]; decide
  have h3 : 0 < special.length := by rw [special_length]; decide
  simp only [mandatory, Intn_of_pos draw _ _ h1, Intn_of_pos draw _ _ h2,
    Intn_of_pos draw _ _ h3]
  rcases index_cases upperCase (draw upperCase.length s).1 with e1 | ⟨u, e1⟩
  · rw [e1]; exact Or.inl rfl
  · rw [e1]
    rcases index_cases numbers (draw numbers.length (draw upperCase.length s).2).1 with
      e2 | ⟨d, e2⟩
    · rw [e2]; exact Or.inl rfl
    · rw [e2]
      rcases index_cases special
        (draw special.length (draw numbers.length (draw upperCase.length s).2).2).1 with
        e3 | ⟨x, e3⟩
      · rw [e3]; exact Or.inl rfl
      · rw [e3]; exact Or.inr ⟨u, d, x, _, rfl⟩

theorem fillFrom_cases {σ : Type} (draw : Draw σ) (todo : Nat) :
    ∀ (i : Nat) (password : List Char) (s : σ),
      fillFrom draw todo i password s = .error .indexOutOfRange ∨
        ∃ q s1, fillFrom draw todo i password s = .ok (q, s1) ∧
          q.length = password.length := by
  induction todo with
  | zero => intro i password s; exact Or.inr ⟨password, s, rfl, rfl⟩
  | succ n ih =>
    intro i password s
    have hpos : 0 < allChars.length := by rw [allChars_length]; decide
    simp only [fillFrom, Intn_of_pos draw _ s hpos]
    rcases index_cases allChars (draw allChars.length s).1 with e | ⟨c, e⟩
    · rw [e]; exact Or.inl rfl
    · rw [e]
      rcases ih (i + 1) (password.set i c) (draw allChars.length s).2 with h | ⟨q, s1, h, hl⟩
      · exact Or.inl h
      · exact Or.inr ⟨q, s1, h, by simpa using hl⟩

theorem shuffleFrom_cases {σ α : Type} (draw : Draw σ) (i : Nat) :
    ∀ (p : List α) (s : σ),
      shuffleFrom draw i p s = .error .indexOutOfRange ∨
        ∃ q s1, shuffleFrom draw i p s = .ok (q, s1) := by
  induction i with
  | zero => intro p s; exact Or.inr ⟨p, s, rfl⟩
  | succ n ih =>
    intro p s
    simp only [shuffleFrom]
    rcases swap_cases p (n + 1) (draw (n + 2) s).1 with e | ⟨q, e⟩
    · rw [e]; exact Or.inl rfl
    · rw [e]; exact ih q _

theorem generatePassword_of_mandatory_error {σ : Type} (memory : Nat) (draw : Draw σ)
    (s : σ) (length : Int) (e : Panic) (h : mandatory draw s = .error e) :
    generatePassword memory draw s length = .error e := by
  simp only [generatePassword, h]

theorem generatePassword_of_mandatory_ok {σ : Type} (memory : Nat) (draw : Draw σ) (s : σ)
    (length : Int) (u d x : Char) (s1 : σ) (h : mandatory draw s = .ok ([u, d, x], s1)) :
    generatePassword memory draw s length =
      match makeSlice memory (wrapInt64 (length - 3)) with
      | .error e => .error e
      | .ok password =>
        match fillFrom draw password.length 0 password s1 with
        | .error e => .error e
        | .ok (filled, s2) =>
          match appendSlice filled [u, d, x] with
          | .error e => .error e
          | .ok whole => Shuffle draw whole.length whole s2 := by
  simp only [generatePassword, h, List.length_cons, List.length_nil]
  rfl

theorem generatePassword_small {σ : Type} (memory : Nat) (draw : Draw σ) (s : σ)
    (length : Int) (hmin : minInt64 ≤ length) (h3 : length < 3) :
    ∃ e, generatePassword memory draw s length = .error e ∧ e.raisedByRuntime = true := by
  rcases mandatory_cases draw s with hm | ⟨u, d, x, s1, hm⟩
  · exact ⟨_, generatePassword_of_mandatory_error memory draw s length _ hm, rfl⟩
  · rw [generatePassword_of_mandatory_ok memory draw s length u d x s1 hm]
    have hcond : wrapInt64 (length - 3) < 0 ∨ maxAlloc < wrapInt64 (length - 3) := by
      unfold wrapInt64 maxAlloc
      unfold minInt64 at hmin
      omega
    exact ⟨.makesliceLenOutOfRange, by simp only [makeSlice, if_pos hcond], rfl⟩

theorem validationLoop_accepts (pre : List Int) (hpre : ∀ x ∈ pre, x < 8) (v : Int)
    (hv : 8 ≤ v) (rest : List (Option Int)) :
    ∀ (cur : Int) (out : List Effect),
      validationLoop (pre.map some ++ some v :: rest) cur out =
        .accepted v (out ++ rejectionRounds pre.length ++ [.print promptText]) rest := by
  induction pre with
  | nil =>
    intro cur out
    have h : ¬ (v < 8) := by omega
    simp [validationLoop, Scanf, h, rejectionRounds]
  | cons x xs ih =>
    intro cur out
    have hx : x < 8 := hpre x (List.mem_cons_self x xs)
    have hxs : ∀ y ∈ xs, y < 8 := fun y hy => hpre y (List.mem_cons_of_mem x hy)
    rw [List.map_cons, List.cons_append, validationLoop]
    simp only [Scanf]
    rw [if_pos hx, ih hxs]
    simp [rejectionRounds, List.append_assoc]

theorem validationLoop_rejects (pre : List Int) (hpre : ∀ x ∈ pre, x < 8) :
    ∀ (cur : Int) (out : List Effect),
      validationLoop (pre.map some) cur out =
        .asking (pre.getLastD cur) (out ++ rejectionRounds pre.length ++ [.print promptText]) := by
  induction pre with
  | nil =>
    intro cur out
    simp [validationLoop, rejectionRounds]
  | cons x xs ih =>
    intro cur out
    have hx : x < 8 := hpre x (List.mem_cons_self x xs)
    have hxs : ∀ y ∈ xs, y < 8 := fun y hy => hpre y (List.mem_cons_of_mem x hy)
    have hl : (x :: xs).getLastD cur = xs.getLastD x := List.getLastD_cons cur x xs
    rw [List.map_cons, validationLoop]
    simp only [Scanf]
    rw [if_pos hx, ih hxs, hl]
    simp [rejectionRounds, List.append_assoc]

theorem validationLoop_accepted_inv (inputs : List (Option Int)) :
    ∀ (cur : Int) (out : List Effect) (L : Int) (o : List Effect) (r : List (Option Int)),
      validationLoop inputs cur out = .accepted L o r →
        8 ≤ L ∧ (L = cur ∨ some L ∈ inputs) := by
  induction inputs with
  | nil => intro cur out L o r h; simp [validationLoop] at h
  | cons a rest ih =>
    intro cur out L o r h
    simp only [validationLoop] at h
    by_cases hlt : Scanf a cur < 8
    · rw [if_pos hlt] at h
      obtain ⟨h8, hL⟩ := ih _ _ L o r h
      refine ⟨h8, ?_⟩
      rcases hL with hL | hL
      · cases a with
        | none => left; simpa [Scanf] using hL
        | some v => right; simp [Scanf] at hL; simp [hL]
      · right; exact List.mem_cons_of_mem _ hL
    · rw [if_neg hlt] at h
      injection h with h1 _ _
      subst h1
      refine ⟨by omega, ?_⟩
      cases a with
      | none => left; rfl
      | some v => right; simp [Scanf]

theorem generatePassword_error_cases {σ : Type} (memory : Nat) (draw : Draw σ) (s : σ)
    (length : Int) (h3 : 3 ≤ length) (hmax : length ≤ maxInt64) (e : Panic)
    (h : generatePassword memory draw s length = .error e) :
    e = .indexOutOfRange ∨ (e = .makesliceLenOutOfRange ∧ maxAlloc < length - 3) ∨
      (e = .outOfMemory ∧ (memory : Int) < length - 3) := by
  rcases mandatory_cases draw s with hm | ⟨u, d, x, s1, hm⟩
  · rw [generatePassword_of_mandatory_error memory draw s length _ hm] at h
    injection h with h
    exact Or.inl h.symm
  · rw [generatePassword_of_mandatory_ok memory draw s length u d x s1 hm] at h
    have hwrap : wrapInt64 (length - 3) = length - 3 :=
      wrapInt64_of_range (by unfold minInt64; omega) (by omega)
    rw [hwrap] at h
    rcases makeSlice_cases memory (length - 3) with ⟨hmk, hc⟩ | ⟨hmk, _, _, hc⟩ |
      ⟨hmk, _, hlim, _⟩
    · rw [hmk] at h
      injection h with h
      exact Or.inr (Or.inl ⟨h.symm, by omega⟩)
    · rw [hmk] at h
      injection h with h
      exact Or.inr (Or.inr ⟨h.symm, hc⟩)
    · rw [hmk] at h
      simp only [List.length_replicate] at h
      rcases fillFrom_cases draw (length - 3).toNat 0
        (List.replicate (length - 3).toNat (Char.ofNat 0)) s1 with hf | ⟨q, s2, hf, hl⟩
      · rw [hf] at h
        injection h with h
        exact Or.inl h.symm
      · rw [hf] at h
        have hover : ¬ (maxInt64 < ((q.length + [u, d, x].length : Nat) : Int)) := by
          rw [hl, List.length_replicate]
          simp only [List.length_cons, List.length_nil]
          omega
        simp only [appendSlice, if_neg hover, Shuffle] at h
        rcases shuffleFrom_cases draw ((q ++ [u, d, x]).length - 1) (q ++ [u, d, x]) s2 with
          hs | ⟨w, s3, hs⟩
        · rw [hs] at h
          injection h with h
          exact Or.inl h.symm
        · rw [hs] at h
          cases h

theorem generatePassword_ok_alloc {σ : Type} (memory : Nat) (draw : Draw σ) (s : σ)
    (length : Int) (h3 : 3 ≤ length) (hmax : length ≤ maxInt64) (pw : List Char) (t : σ)
    (h : generatePassword memory draw s length = .ok (pw, t)) :
    length - 3 ≤ maxAlloc ∧ length - 3 ≤ (memory : Int) := by
  rcases mandatory_cases draw s with hm | ⟨u, d, x, s1, hm⟩
  · rw [generatePassword_of_mandatory_error memory draw s length _ hm] at h
    cases h
  · rw [generatePassword_of_mandatory_ok memory draw s length u d x s1 hm] at h
    have hwrap : wrapInt64 (length - 3) = length - 3 :=
      wrapInt64_of_range (by unfold minInt64; omega) (by omega)
    rw [hwrap] at h
    rcases makeSlice_cases memory (length - 3) with ⟨hmk, _⟩ | ⟨hmk, _⟩ | ⟨_, _, hlim, hmem⟩
    · rw [hmk] at h; cases h
    · rw [hmk] at h; cases h
    · exact ⟨hlim, hmem⟩

theorem validChoices_zero (cs : List Nat) : validChoices 0 cs = true ↔ cs = [] := by
  cases cs <;> simp [validChoices]

theorem validChoices_succ (i : Nat) (cs : List Nat) :
    validChoices (i + 1) cs = true ↔
      ∃ j js, cs = j :: js ∧ j ≤ i + 1 ∧ validChoices i js = true := by
  cases cs with
  | nil => simp [validChoices]
  | cons c cs1 =>
    simp only [validChoices, Bool.and_eq_true, decide_eq_true_eq, List.cons.injEq]
    constructor
    · rintro ⟨h1, h2⟩
      exact ⟨c, cs1, ⟨rfl, rfl⟩, h1, h2⟩
    · rintro ⟨j, js, ⟨rfl, rfl⟩, h1, h2⟩
      exact ⟨h1, h2⟩

theorem set_set_getElem? {α : Type} (p : List α) (a b : Nat) (ha : a < p.length)
    (hb : b < p.length) (k : Nat) :
    ((p.set a p[b]).set b p[a])[k]? =
      if k = b then some p[a] else if k = a then some p[b] else p[k]? := by
  rw [List.getElem?_set]
  by_cases hkb : b = k
  · subst hkb
    simp [hb]
  · rw [if_neg hkb, if_neg (Ne.symm hkb), List.getElem?_set]
    by_cases hka : a = k
    · subst hka
      simp [ha]
    · rw [if_neg hka, if_neg (Ne.symm hka)]

theorem shuffleFrom_replay_succ {α : Type} (i : Nat) (p : List α) (j : Nat) (js : List Nat) :
    shuffleFrom replayDraw (i + 1) p (j :: js) =
      match swap p (i + 1) j with
      | .error e => .error e
      | .ok p1 => shuffleFrom replayDraw i p1 js := rfl

theorem shuffleFrom_replay_step {α : Type} (i : Nat) (p : List α) (j : Nat) (js : List Nat)
    (hi : i + 1 < p.length) (hj : j < p.length) :
    shuffleFrom replayDraw (i + 1) p (j :: js) =
      shuffleFrom replayDraw i ((p.set (i + 1) p[j]).set j p[i + 1]) js := by
  rw [shuffleFrom_replay_succ, swap_of_lt p _ _ hi hj]

theorem shuffleFrom_replay_ok {α : Type} (i : Nat) :
    ∀ (p : List α) (cs : List Nat), i < p.length → validChoices i cs = true →
      ∃ q, shuffleFrom replayDraw i p cs = .ok (q, []) ∧ List.Perm q p ∧
        ∀ k, i < k → q[k]? = p[k]? := by
  induction i with
  | zero =>
    intro p cs _ hv
    rw [(validChoices_zero cs).mp hv]
    exact ⟨p, rfl, List.Perm.refl p, fun _ _ => rfl⟩
  | succ n ih =>
    intro p cs hi hv
    obtain ⟨j, js, rfl, hj, hjs⟩ := (validChoices_succ n cs).mp hv
    have hjl : j < p.length := by omega
    obtain ⟨q, hq, hperm, hfix⟩ := ih ((p.set (n + 1) p[j]).set j p[n + 1]) js
      (by simp; omega) hjs
    refine ⟨q, ?_, hperm.trans (set_set_perm_self p (n + 1) j hi hjl), ?_⟩
    · rw [shuffleFrom_replay_step n p j js hi hjl]
      exact hq
    · intro k hk
      rw [hfix k (by omega), set_set_getElem? p (n + 1) j hi hjl k,
        if_neg (by omega), if_neg (by omega)]

theorem shuffleFrom_replay_top {α : Type} (n : Nat) (p : List α) (j : Nat) (js : List Nat)
    (q : List α) (hi : n + 1 < p.length) (hj : j ≤ n + 1) (hjs : validChoices n js = true)
    (h : shuffleFrom replayDraw (n + 1) p (j :: js) = .ok (q, [])) :
    q[n + 1]? = p[j]? := by
  have hjl : j < p.length := by omega
  rw [shuffleFrom_replay_step n p j js hi hjl] at h
  obtain ⟨q1, hq1, _, hfix⟩ := shuffleFrom_replay_ok n ((p.set (n + 1) p[j]).set j p[n + 1]) js
    (by simp; omega) hjs
  rw [h] at hq1
  injection hq1 with hq1
  injection hq1 with hq1 _
  subst hq1
  rw [hfix (n + 1) (by omega), set_set_getElem? p (n + 1) j hi hjl (n + 1)]
  by_cases hjn : n + 1 = j
  · subst hjn
    simp
  · rw [if_neg hjn, if_pos rfl, List.getElem?_eq_getElem hjl]

theorem shuffleFrom_replay_inj {α : Type} (i : Nat) :
    ∀ (p : List α) (cs cs1 : List Nat) (q : List α), p.Nodup → i < p.length →
      validChoices i cs = true → validChoices i cs1 = true →
      shuffleFrom replayDraw i p cs = .ok (q, []) →
      shuffleFrom replayDraw i p cs1 = .ok (q, []) → cs = cs1 := by
  induction i with
  | zero =>
    intro p cs cs1 q _ _ hv hv1 _ _
    rw [(validChoices_zero cs).mp hv, (validChoices_zero cs1).mp hv1]
  | succ n ih =>
    intro p cs cs1 q hnd hi hv hv1 h h1
    obtain ⟨j, js, rfl, hj, hjs⟩ := (validChoices_succ n cs).mp hv
    obtain ⟨j1, js1, rfl, hj1, hjs1⟩ := (validChoices_succ n cs1).mp hv1
    have hjl : j < p.length := by omega
    have hjl1 : j1 < p.length := by omega
    have t := shuffleFrom_replay_top n p j js q hi hj hjs h
    have t1 := shuffleFrom_replay_top n p j1 js1 q hi hj1 hjs1 h1
    rw [t, List.getElem?_eq_getElem hjl, List.getElem?_eq_getElem hjl1] at t1
    injection t1 with t1
    have hjj : j = j1 := (List.Nodup.getElem_inj_iff hnd).mp t1
    subst hjj
    rw [shuffleFrom_replay_step n p j js hi hjl] at h
    rw [shuffleFrom_replay_step n p j js1 hi hjl] at h1
    have hnd1 : ((p.set (n + 1) p[j]).set j p[n + 1]).Nodup :=
      (set_set_perm_self p (n + 1) j hi hjl).nodup_iff.mpr hnd
    rw [ih _ js js1 q hnd1 (by simp; omega) hjs hjs1 h h1]

theorem eq_of_perm_of_tail_eq {α : Type} (p q : List α) (hperm : List.Perm q p)
    (hfix : ∀ k, 0 < k → q[k]? = p[k]?) : q = p := by
  cases q with
  | nil => exact (List.nil_perm.mp hperm).symm
  | cons q0 qt =>
    cases p with
    | nil => exact List.perm_nil.mp hperm
    | cons p0 pt =>
      have ht : qt = pt := by
        apply List.ext_getElem?
        intro k
        simpa using hfix (k + 1) (by omega)
      subst ht
      have h1 : List.Perm ([q0] ++ qt) ([p0] ++ qt) := hperm
      have h2 := (List.perm_append_right_iff qt).mp h1
      rw [List.singleton_perm_singleton.mp h2]

theorem shuffleFrom_replay_surj {α : Type} (i : Nat) :
    ∀ (p q : List α), p.Nodup → i < p.length → List.Perm q p →
      (∀ k, i < k → q[k]? = p[k]?) →
      ∃ cs, validChoices i cs = true ∧ shuffleFrom replayDraw i p cs = .ok (q, []) := by
  induction i with
  | zero =>
    intro p q _ _ hperm hfix
    rw [eq_of_perm_of_tail_eq p q hperm hfix]
    exact ⟨[], rfl, rfl⟩
  | succ n ih =>
    intro p q hnd hi hperm hfix
    have hlen : q.length = p.length := hperm.length_eq
    have hqi : n + 1 < q.length := by omega
    have hqnd : q.Nodup := hperm.nodup_iff.mpr hnd
    obtain ⟨j, hjl, hjx⟩ := List.getElem_of_mem (hperm.subset (List.getElem_mem hqi))
    have hjle : j ≤ n + 1 := by
      by_contra hcon
      have hjq : j < q.length := by omega
      have h1 := hfix j (by omega)
      rw [List.getElem?_eq_getElem hjq, List.getElem?_eq_getElem hjl] at h1
      injection h1 with h1
      have h2 : q[j] = q[n + 1] := h1.trans hjx
      have h3 := (List.Nodup.getElem_inj_iff hqnd).mp h2
      omega
    have hp1 := set_set_perm_self p (n + 1) j hi hjl
    obtain ⟨js, hjs, hrun⟩ := ih ((p.set (n + 1) p[j]).set j p[n + 1]) q
      (hp1.nodup_iff.mpr hnd) (by simp; omega) (hperm.trans hp1.symm) (by
        intro k hk
        rw [set_set_getElem? p (n + 1) j hi hjl k]
        by_cases hkj : k = j
        · have hjn : j = n + 1 := by omega
          subst hkj
          subst hjn
          rw [if_pos rfl, List.getElem?_eq_getElem hqi, hjx]
        · rw [if_neg hkj]
          by_cases hkn : k = n + 1
          · subst hkn
            rw [if_pos rfl, List.getElem?_eq_getElem hqi, hjx]
          · rw [if_neg hkn]
            exact hfix k (by omega))
    refine ⟨j :: js, (validChoices_succ n _).mpr ⟨j, js, rfl, hjle, hjs⟩, ?_⟩
    rw [shuffleFrom_replay_step n p j js hi hjl]
    exact hrun

theorem choiceLists_length (i : Nat) : (choiceLists i).length = (i + 1).factorial := by
  induction i with
  | zero => rfl
  | succ n ih =>
    simp [choiceLists, List.length_flatten, ih, Function.comp_def]
    rw [Nat.factorial_succ (n + 1)]

theorem mem_choiceLists (i : Nat) :
    ∀ cs, cs ∈ choiceLists i ↔ validChoices i cs = true := by
  induction i with
  | zero => intro cs; cases cs <;> simp [choiceLists, validChoices]
  | succ n ih =>
    intro cs
    cases cs with
    | nil => simp [choiceLists, validChoices]
    | cons c cs1 =>
      simp only [choiceLists, List.mem_flatten, List.mem_map, List.mem_range, validChoices,
        Bool.and_eq_true, decide_eq_true_eq]
      constructor
      · rintro ⟨l, ⟨j, hj, rfl⟩, hmem⟩
        simp only [List.mem_map, List.cons.injEq] at hmem
        obtain ⟨js, hjs, rfl, rfl⟩ := hmem
        exact ⟨by omega, (ih js).mp hjs⟩
      · rintro ⟨h1, h2⟩
        exact ⟨_, ⟨c, by omega, rfl⟩, List.mem_map.mpr ⟨cs1, (ih cs1).mpr h2, rfl⟩⟩

theorem choiceLists_nodup (i : Nat) : (choiceLists i).Nodup := by
  induction i with
  | zero => simp [choiceLists]
  | succ n ih =>
    simp only [choiceLists]
    rw [List.nodup_flatten]
    constructor
    · intro l hl
      simp only [List.mem_map, List.mem_range] at hl
      obtain ⟨j, _, rfl⟩ := hl
      exact ih.map (fun a b h => by simpa using h)
    · rw [List.pairwise_map]
      refine (List.nodup_range (n + 2)).imp_of_mem ?_
      intro a b _ _ hab l h1 h2
      simp only [List.mem_map] at h1 h2
      obtain ⟨x, _, rfl⟩ := h1
      obtain ⟨y, _, hy⟩ := h2
      simp only [List.cons.injEq] at hy
      exact hab hy.1.symm

theorem getElem?_eq_of_perm_of_le {α : Type} (p q : List α) (hperm : List.Perm q p)
    (k : Nat) (hk : p.length ≤ k) : q[k]? = p[k]? := by
  rw [List.getElem?_eq_none hk, List.getElem?_eq_none (by rw [hperm.length_eq]; exact hk)]

theorem Scanf_of_rejected (x : Option Int) (hx : isRejected x = true) (cur : Int)
    (hcur : cur < 8) : Scanf x cur < 8 := by
  cases x with
  | none => exact hcur
  | some v => simpa [isRejected, Scanf] using hx

theorem validationLoop_reject_step (x : Option Int) (hx : isRejected x = true)
    (rest : List (Option Int)) (cur : Int) (hcur : cur < 8) (out : List Effect) :
    validationLoop (x :: rest) cur out =
      validationLoop rest (Scanf x cur)
        (out ++ [.print promptText] ++ [.print (warningText ++ "\n"), .sleep 3] ++
          clearScreenANSI) := by
  rw [validationLoop, if_pos (Scanf_of_rejected x hx cur hcur)]

theorem validationLoop_accepts_of_rejected (pre : List (Option Int))
    (hpre : ∀ x ∈ pre, isRejected x = true) (v : Int) (hv : 8 ≤ v)
    (rest : List (Option Int)) :
    ∀ (cur : Int) (out : List Effect), cur < 8 →
      validationLoop (pre ++ some v :: rest) cur out =
        .accepted v (out ++ rejectionRounds pre.length ++ [.print promptText]) rest := by
  induction pre with
  | nil =>
    intro cur out _
    have h : ¬ (v < 8) := by omega
    simp [validationLoop, Scanf, h, rejectionRounds]
  | cons x xs ih =>
    intro cur out hcur
    have hx : isRejected x = true := hpre x (List.mem_cons_self x xs)
    have hxs : ∀ y ∈ xs, isRejected y = true := fun y hy => hpre y (List.mem_cons_of_mem x hy)
    rw [List.cons_append, validationLoop_reject_step x hx _ cur hcur,
      ih hxs _ _ (Scanf_of_rejected x hx cur hcur)]
    simp [rejectionRounds, List.append_assoc]

theorem validationLoop_asking_of_rejected (pre : List (Option Int))
    (hpre : ∀ x ∈ pre, isRejected x = true) :
    ∀ (cur : Int) (out : List Effect), cur < 8 →
      ∃ t, t < 8 ∧ validationLoop pre cur out =
        .asking t (out ++ rejectionRounds pre.length ++ [.print promptText]) := by
  induction pre with
  | nil =>
    intro cur out hcur
    exact ⟨cur, hcur, by simp [validationLoop, rejectionRounds]⟩
  | cons x xs ih =>
    intro cur out hcur
    have hx : isRejected x = true := hpre x (List.mem_cons_self x xs)
    have hxs : ∀ y ∈ xs, isRejected y = true := fun y hy => hpre y (List.mem_cons_of_mem x hy)
    obtain ⟨t, ht, hrun⟩ := ih hxs (Scanf x cur)
      (out ++ [.print promptText] ++ [.print (warningText ++ "\n"), .sleep 3] ++
        clearScreenANSI) (Scanf_of_rejected x hx cur hcur)
    refine ⟨t, ht, ?_⟩
    rw [validationLoop_reject_step x hx _ cur hcur, hrun]
    simp [rejectionRounds, List.append_assoc]

theorem inputs_split (inputs : List (Option Int)) :
    (∀ x ∈ inputs, isRejected x = true) ∨
      ∃ pre v rest, inputs = pre ++ some v :: rest ∧
        (∀ x ∈ pre, isRejected x = true) ∧ 8 ≤ v := by
  induction inputs with
  | nil => left; intro x hx; simp at hx
  | cons a rest ih =>
    by_cases ha : isRejected a = true
    · rcases ih with h | ⟨pre, v, r, hin, hpre, hv⟩
      · left
        intro x hx
        rcases List.mem_cons.mp hx with rfl | hx
        · exact ha
        · exact h x hx
      · right
        refine ⟨a :: pre, v, r, by rw [hin]; rfl, ?_, hv⟩
        intro x hx
        rcases List.mem_cons.mp hx with rfl | hx
        · exact ha
        · exact hpre x hx
    · right
      cases a with
      | none => simp [isRejected] at ha
      | some v =>
        refine ⟨[], v, rest, rfl, by intro x hx; simp at hx, ?_⟩
        simp only [isRejected, decide_eq_true_eq] at ha
        omega

theorem drawSequence_append {σ : Type} (draw : Draw σ) (a b : List Nat) :
    ∀ s : σ, drawSequence draw (a ++ b) s =
      ((drawSequence draw a s).1 ++ (drawSequence draw b (drawSequence draw a s).2).1,
        (drawSequence draw b (drawSequence draw a s).2).2) := by
  induction a with
  | nil => intro s; rfl
  | cons n ns ih =>
    intro s
    show drawSequence draw (n :: (ns ++ b)) s = _
    rw [drawSequence, ih (draw n s).2]
    rfl

theorem replayDraw_cons (n k : Nat) (rest : List Nat) :
    replayDraw n (k :: rest) = (k, rest) := rfl

theorem mandatory_trace {σ : Type} (draw : Draw σ) (s : σ) (m : List Char) (t : σ)
    (h : mandatory draw s = .ok (m, t)) :
    t = (drawSequence draw [upperCase.length, numbers.length, special.length] s).2 ∧
    ∀ rest, mandatory replayDraw
      ((drawSequence draw [upperCase.length, numbers.length, special.length] s).1 ++ rest) =
        .ok (m, rest) := by
  have h1 : 0 < upperCase.length := by rw [upperCase_length]; decide
  have h2 : 0 < numbers.length := by rw [numbers_length]; decide
  have h3 : 0 < special.length := by rw [special_length]; decide
  simp only [mandatory, Intn_of_pos draw _ _ h1, Intn_of_pos draw _ _ h2,
    Intn_of_pos draw _ _ h3] at h
  rcases index_cases upperCase (draw upperCase.length s).1 with e1 | ⟨u, e1⟩
  · rw [e1] at h; cases h
  · rw [e1] at h
    rcases index_cases numbers (draw numbers.length (draw upperCase.length s).2).1 with
      e2 | ⟨d, e2⟩
    · rw [e2] at h; cases h
    · rw [e2] at h
      rcases index_cases special
        (draw special.length (draw numbers.length (draw upperCase.length s).2).2).1 with
        e3 | ⟨x, e3⟩
      · rw [e3] at h; cases h
      · rw [e3] at h
        injection h with h
        injection h with hm ht
        subst hm
        refine ⟨ht.symm, ?_⟩
        intro rest
        simp only [drawSequence, List.cons_append, List.nil_append, mandatory,
          Intn_of_pos replayDraw _ _ h1, Intn_of_pos replayDraw _ _ h2,
          Intn_of_pos replayDraw _ _ h3, replayDraw_cons, e1, e2, e3]

theorem fillFrom_trace {σ : Type} (draw : Draw σ) (todo : Nat) :
    ∀ (i : Nat) (password : List Char) (s : σ) (q : List Char) (t : σ),
      fillFrom draw todo i password s = .ok (q, t) →
      t = (drawSequence draw (List.replicate todo allChars.length) s).2 ∧
      ∀ rest, fillFrom replayDraw todo i password
        ((drawSequence draw (List.replicate todo allChars.length) s).1 ++ rest) =
          .ok (q, rest) := by
  induction todo with
  | zero =>
    intro i password s q t h
    simp only [fillFrom] at h
    injection h with h
    injection h with hq ht
    subst hq
    exact ⟨ht.symm, fun rest => rfl⟩
  | succ n ih =>
    intro i password s q t h
    have hpos : 0 < allChars.length := by rw [allChars_length]; decide
    simp only [fillFrom, Intn_of_pos draw _ s hpos] at h
    rcases index_cases allChars (draw allChars.length s).1 with e | ⟨c, e⟩
    · rw [e] at h; cases h
    · rw [e] at h
      obtain ⟨ht, hrep⟩ := ih (i + 1) (password.set i c) (draw allChars.length s).2 q t h
      refine ⟨by simpa [List.replicate_succ, drawSequence] using ht, ?_⟩
      intro rest
      simp only [List.replicate_succ, drawSequence, List.cons_append, fillFrom,
        Intn_of_pos replayDraw _ _ hpos, replayDraw_cons, e]
      exact hrep rest

theorem shuffleFrom_trace {σ α : Type} (draw : Draw σ) (i : Nat) :
    ∀ (p : List α) (s : σ) (q : List α) (t : σ),
      shuffleFrom draw i p s = .ok (q, t) →
      t = (drawSequence draw (shuffleBounds i) s).2 ∧
      ∀ rest, shuffleFrom replayDraw i p
        ((drawSequence draw (shuffleBounds i) s).1 ++ rest) = .ok (q, rest) := by
  induction i with
  | zero =>
    intro p s q t h
    simp only [shuffleFrom] at h
    injection h with h
    injection h with hq ht
    subst hq
    exact ⟨ht.symm, fun rest => rfl⟩
  | succ n ih =>
    intro p s q t h
    simp only [shuffleFrom] at h
    rcases swap_cases p (n + 1) (draw (n + 2) s).1 with e | ⟨p1, e⟩
    · rw [e] at h; cases h
    · rw [e] at h
      obtain ⟨ht, hrep⟩ := ih p1 (draw (n + 2) s).2 q t h
      refine ⟨by simpa [shuffleBounds, drawSequence] using ht, ?_⟩
      intro rest
      simp only [shuffleBounds, drawSequence, List.cons_append, shuffleFrom_replay_succ, e]
      exact hrep rest

theorem generatePassword_trace {σ : Type} (memory : Nat) (draw : Draw σ) (s : σ)
    (length : Int) (h3 : 3 ≤ length) (hmax : length ≤ maxInt64) (pw : List Char) (t : σ)
    (h : generatePassword memory draw s length = .ok (pw, t)) :
    t = (drawSequence draw (requestedBounds length.toNat) s).2 ∧
    ∀ rest, generatePassword memory replayDraw
      ((drawSequence draw (requestedBounds length.toNat) s).1 ++ rest) length =
        .ok (pw, rest) := by
  obtain ⟨hlim, hmem⟩ := generatePassword_ok_alloc memory draw s length h3 hmax pw t h
  rcases mandatory_cases draw s with hm | ⟨u, d, x, s1, hm⟩
  · rw [generatePassword_of_mandatory_error memory draw s length _ hm] at h
    cases h
  · obtain ⟨hs1, hrep1⟩ := mandatory_trace draw s _ s1 hm
    rw [generatePassword_of_mandatory_ok memory draw s length u d x s1 hm] at h
    have hwrap : wrapInt64 (length - 3) = length - 3 :=
      wrapInt64_of_range (by unfold minInt64; omega) (by omega)
    have hmk := makeSlice_ok memory (length - 3) (by omega) hlim hmem
    have hn : (length - 3).toNat = length.toNat - 3 := by omega
    simp only [hwrap, hmk, List.length_replicate, hn] at h
    rcases fillFrom_cases draw (length.toNat - 3) 0
      (List.replicate (length.toNat - 3) (Char.ofNat 0)) s1 with hf | ⟨q, s2, hf, hl⟩
    · rw [hf] at h; cases h
    · rw [hf] at h
      obtain ⟨hs2, hrep2⟩ := fillFrom_trace draw _ 0 _ s1 q s2 hf
      by_cases hover : maxInt64 < ((q.length + [u, d, x].length : Nat) : Int)
      · simp only [appendSlice, if_pos hover] at h
        cases h
      · simp only [appendSlice, if_neg hover, Shuffle] at h
        have hlen : (q ++ [u, d, x]).length - 1 = length.toNat - 1 := by
          rw [List.length_append, hl, List.length_replicate]
          simp only [List.length_cons, List.length_nil]
          omega
        rw [hlen] at h
        obtain ⟨hs3, hrep3⟩ := shuffleFrom_trace draw _ _ s2 pw t h
        have hseq : drawSequence draw (requestedBounds length.toNat) s =
            ((drawSequence draw [upperCase.length, numbers.length, special.length] s).1 ++
              ((drawSequence draw (List.replicate (length.toNat - 3) allChars.length) s1).1 ++
                (drawSequence draw (shuffleBounds (length.toNat - 1)) s2).1), t) := by
          unfold requestedBounds
          rw [List.append_assoc, drawSequence_append, drawSequence_append, ← hs1, ← hs2, ← hs3]
        refine ⟨by rw [hseq], ?_⟩
        intro rest
        rw [hseq]
        simp only [List.append_assoc]
        rw [generatePassword_of_mandatory_ok memory replayDraw _ length u d x _ (hrep1 _)]
        simp only [hwrap, hmk, List.length_replicate, hn]
        rw [hrep2 _]
        simp only [appendSlice, if_neg hover, Shuffle]
        rw [hlen]
        exact hrep3 rest

theorem recordDraw_inRange {σ : Type} (draw : Draw σ) (hd : InRange draw) :
    InRange (recordDraw draw) := by
  intro n st hn
  exact hd n st.1 hn

theorem drawSequence_length {σ : Type} (draw : Draw σ) (ns : List Nat) :
    ∀ s : σ, (drawSequence draw ns s).1.length = ns.length := by
  induction ns with
  | nil => intro s; rfl
  | cons n ns ih => intro s; simp [drawSequence, ih]

theorem drawSequence_record {σ : Type} (draw : Draw σ) (ns : List Nat) :
    ∀ (s : σ) (l : List (Nat × Nat)),
      drawSequence (recordDraw draw) ns (s, l) =
        ((drawSequence draw ns s).1,
          ((drawSequence draw ns s).2, l ++ ns.zip (drawSequence draw ns s).1)) := by
  induction ns with
  | nil => intro s l; simp [drawSequence]
  | cons n ns ih =>
    intro s l
    simp only [drawSequence, recordDraw, ih, List.zip_cons_cons, List.append_assoc,
      List.singleton_append]

theorem generatePassword_mem_allChars {σ : Type} (memory : Nat) (draw : Draw σ)
    (hd : InRange draw) (s : σ) (length : Int) (h3 : 3 ≤ length) (hmax : length ≤ maxInt64)
    (pw : List Char) (t : σ) (h : generatePassword memory draw s length = .ok (pw, t)) :
    ∀ c ∈ pw, c ∈ allChars := by
  obtain ⟨hlim, hmem⟩ := generatePassword_ok_alloc memory draw s length h3 hmax pw t h
  obtain ⟨u, d, x, s1, pw1, s2, _, hu, hdg, hx, hg, hperm⟩ :=
    generatePassword_eq memory draw hd s length h3 hlim hmem
  rw [h] at hg
  injection hg with hg
  injection hg with hpw _
  subst hpw
  intro c hc
  have hc2 := hperm.subset hc
  simp only [List.mem_append, List.mem_cons, List.mem_singleton, List.not_mem_nil,
    or_false] at hc2
  rcases hc2 with hf | rfl | rfl | rfl
  · exact drawnFiller_mem draw hd _ _ c hf
  · simp [allChars, hu]
  · simp [allChars, hdg]
  · simp [allChars, hx]

theorem shuffleBounds_mem (i : Nat) : ∀ n ∈ shuffleBounds i, 2 ≤ n ∧ n ≤ i + 1 := by
  induction i with
  | zero => intro n hn; simp [shuffleBounds] at hn
  | succ k ih =>
    intro n hn
    simp only [shuffleBounds, List.mem_cons] at hn
    rcases hn with rfl | hn
    · omega
    · have := ih n hn
      omega

theorem shuffleBounds_length (i : Nat) : (shuffleBounds i).length = i := by
  induction i with
  | zero => rfl
  | succ k ih => simp [shuffleBounds, ih]

theorem requestedBounds_pos (length : Nat) : ∀ n ∈ requestedBounds length, 0 < n := by
  intro n hn
  simp only [requestedBounds, List.mem_append, List.mem_cons, List.not_mem_nil, or_false,
    List.mem_replicate] at hn
  rcases hn with ((rfl | rfl | rfl) | ⟨_, rfl⟩) | hn
  · rw [upperCase_length]; decide
  · rw [numbers_length]; decide
  · rw [special_length]; decide
  · rw [allChars_length]; decide
  · have := shuffleBounds_mem _ n hn
    omega

theorem drawSequence_lt {σ : Type} (draw : Draw σ) (hd : InRange draw) (ns : List Nat) :
    (∀ n ∈ ns, 0 < n) → ∀ s : σ, ∀ call ∈ ns.zip (drawSequence draw ns s).1,
      call.2 < call.1 := by
  induction ns with
  | nil => intro _ s call hc; simp at hc
  | cons n ns ih =>
    intro hpos s call hc
    simp only [drawSequence, List.zip_cons_cons, List.mem_cons] at hc
    rcases hc with rfl | hc
    · exact hd n s (hpos n (List.mem_cons_self n ns))
    · exact ih (fun m hm => hpos m (List.mem_cons_of_mem n hm)) _ call hc

theorem generatePassword_record {σ : Type} (memory : Nat) (draw : Draw σ)
    (hd : InRange draw) (s : σ) (length : Int) (h3 : 3 ≤ length) (hmax : length ≤ maxInt64)
    (pw : List Char) (t : σ) (h : generatePassword memory draw s length = .ok (pw, t)) :
    generatePassword memory (recordDraw draw) (s, []) length =
      .ok (pw, (t, (requestedBounds length.toNat).zip
        (drawSequence draw (requestedBounds length.toNat) s).1)) := by
  obtain ⟨hlim, hmem⟩ := generatePassword_ok_alloc memory draw s length h3 hmax pw t h
  obtain ⟨_, _, _, _, pw1, st1, _, _, _, _, hg1, _⟩ :=
    generatePassword_eq memory (recordDraw draw) (recordDraw_inRange draw hd) (s, []) length
      h3 hlim hmem
  obtain ⟨ht, hrep⟩ := generatePassword_trace memory draw s length h3 hmax pw t h
  obtain ⟨ht1, hrep1⟩ :=
    generatePassword_trace memory (recordDraw draw) (s, []) length h3 hmax pw1 st1 hg1
  rw [drawSequence_record] at ht1 hrep1
  have hpw : pw1 = pw := by
    have e1 := hrep1 []
    rw [hrep []] at e1
    injection e1 with e1
    injection e1 with e1 _
    exact e1.symm
  rw [hg1, ht1, hpw, ← ht]
  simp

theorem generatePassword_huge {σ : Type} (memory : Nat) (draw : Draw σ)
    (hd : InRange draw) (s : σ) (length : Int) (hbig : maxAlloc + 3 < length)
    (hmax : length ≤ maxInt64) :
    generatePassword memory draw s length = .error .makesliceLenOutOfRange := by
  obtain ⟨u, d, x, s1, hm, _⟩ := mandatory_eq draw hd s
  rw [generatePassword_of_mandatory_ok memory draw s length u d x s1 hm]
  have hwrap : wrapInt64 (length - 3) = length - 3 :=
    wrapInt64_of_range (by unfold minInt64 maxAlloc at *; omega) (by omega)
  have hcond : length - 3 < 0 ∨ maxAlloc < length - 3 := by omega
  simp only [hwrap, makeSlice, if_pos hcond]

theorem main_of_error {σ : Type} (memory : Nat) (draw : Draw σ) (s : σ)
    (inputs : List (Option Int)) (L : Int) (out : List Effect) (rest : List (Option Int))
    (e : Panic) (hloop : validationLoop inputs 0 [] = .accepted L out rest)
    (hgen : generatePassword memory draw s L = .error e) :
    main memory draw s inputs = .panicked out e := by
  simp only [main, hloop, hgen]

theorem Print_two_strings (a b : String) : Print [.str a, .str b] = a ++ b := by
  simp [Print, Operand.text, Operand.isString]

theorem main_of_accepted {σ : Type} (memory : Nat) (draw : Draw σ) (s : σ)
    (inputs : List (Option Int)) (L : Int) (out : List Effect) (rest : List (Option Int))
    (pw : List Char) (t : σ) (hloop : validationLoop inputs 0 [] = .accepted L out rest)
    (hgen : generatePassword memory draw s L = .ok (pw, t)) :
    main memory draw s inputs =
      .returned (out ++ [.print "\x1b[2J\x1b[H", .print ("A sua senha é: " ++ String.mk pw)])
        t := by
  simp only [main, hloop, hgen, Print_two_strings, clearScreenANSI, List.append_assoc,
    List.singleton_append]

theorem generatePassword_memory_irrelevant {σ : Type} (m1 m2 : Nat) (draw : Draw σ) (s : σ)
    (length : Int) (h3 : 3 ≤ length) (hlim : length - 3 ≤ maxAlloc)
    (h1 : length - 3 ≤ (m1 : Int)) (h2 : length - 3 ≤ (m2 : Int)) :
    generatePassword m1 draw s length = generatePassword m2 draw s length := by
  rcases mandatory_cases draw s with hm | ⟨u, d, x, s1, hm⟩
  · rw [generatePassword_of_mandatory_error m1 draw s length _ hm,
      generatePassword_of_mandatory_error m2 draw s length _ hm]
  · have hmax : length ≤ maxInt64 := by
      have := maxAlloc_lt_maxInt64
      omega
    have hwrap : wrapInt64 (length - 3) = length - 3 :=
      wrapInt64_of_range (by unfold minInt64; omega) (by omega)
    rw [generatePassword_of_mandatory_ok m1 draw s length u d x s1 hm,
      generatePassword_of_mandatory_ok m2 draw s length u d x s1 hm, hwrap,
      makeSlice_ok m1 (length - 3) (by omega) hlim h1,
      makeSlice_ok m2 (length - 3) (by omega) hlim h2]

theorem generatePassword_error_of_inRange {σ : Type} (memory : Nat) (draw : Draw σ)
    (hd : InRange draw) (s : σ) (length : Int) (h3 : 3 ≤ length) (hmax : length ≤ maxInt64)
    (e : Panic) (h : generatePassword memory draw s length = .error e) :
    (e = .makesliceLenOutOfRange ∧ maxAlloc < length - 3) ∨
      (e = .outOfMemory ∧ length - 3 ≤ maxAlloc ∧ (memory : Int) < length - 3) := by
  obtain ⟨u, d, x, s1, hm, _⟩ := mandatory_eq draw hd s
  have hwrap : wrapInt64 (length - 3) = length - 3 :=
    wrapInt64_of_range (by unfold minInt64; omega) (by omega)
  rcases makeSlice_cases memory (length - 3) with ⟨hmk, hc⟩ | ⟨hmk, _, hlim, hc⟩ |
    ⟨_, _, hlim, hmem⟩
  · rw [generatePassword_of_mandatory_ok memory draw s length u d x s1 hm, hwrap, hmk] at h
    injection h with h
    exact Or.inl ⟨h.symm, by omega⟩
  · rw [generatePassword_of_mandatory_ok memory draw s length u d x s1 hm, hwrap, hmk] at h
    injection h with h
    exact Or.inr ⟨h.symm, hlim, hc⟩
  · obtain ⟨_, _, _, _, pw, s2, _, _, _, _, hg, _⟩ :=
      generatePassword_eq memory draw hd s length h3 hlim hmem
    rw [hg] at h
    cases h

/-! ## The claims -/

/-- C1, as stated, fails at length 2^62, a length that `main` accepts: whatever
memory the machine has, `make([]byte, length-3)` panics with "makeslice: len
out of range" after the three mandatory draws, so no password is returned and
none contains the three kinds of character. -/
theorem generatePassword_contains_each_kind_fails :
    InRange counterDraw ∧ (3 : Int) ≤ 2 ^ 62 ∧ (2 : Int) ^ 62 ≤ maxInt64 ∧
    ∀ memory : Nat,
      generatePassword memory counterDraw 0 (2 ^ 62) = .error .makesliceLenOutOfRange ∧
      ¬ ∃ pw s2, generatePassword memory counterDraw 0 (2 ^ 62) = .ok (pw, s2) ∧
        (∃ c ∈ pw, c ∈ upperCase) ∧ (∃ c ∈ pw, c ∈ numbers) ∧ (∃ c ∈ pw, c ∈ special) := by
  refine ⟨counterDraw_inRange, by decide, by decide, ?_⟩
  intro memory
  have h := generatePassword_huge memory counterDraw counterDraw_inRange 0 (2 ^ 62)
    (by decide) (by decide)
  refine ⟨h, ?_⟩
  rintro ⟨pw, s2, hok, _⟩
  rw [h] at hok
  cases hok

/-- C1, amended: for every length of at least 3 whose filler slice of
`length - 3` bytes can be allocated (at most the allocation limit of the
runtime and at most the memory of the machine) and every outcome of the random
draws, `generatePassword` returns a password that contains at least one
character of the uppercase set, at least one digit and at least one special
character. -/
theorem generatePassword_contains_each_kind {σ : Type} (memory : Nat) (draw : Draw σ)
    (hd : InRange draw) (s : σ) (length : Int) (h3 : 3 ≤ length)
    (hlim : length - 3 ≤ maxAlloc) (hmem : length - 3 ≤ (memory : Int)) :
    ∃ pw s2, generatePassword memory draw s length = .ok (pw, s2) ∧
      (∃ c ∈ pw, c ∈ upperCase) ∧ (∃ c ∈ pw, c ∈ numbers) ∧ (∃ c ∈ pw, c ∈ special) := by
  obtain ⟨u, d, x, s1, pw, s2, _, hu, hdg, hx, hg, hperm⟩ :=
    generatePassword_eq memory draw hd s length h3 hlim hmem
  refine ⟨pw, s2, hg, ⟨u, ?_, hu⟩, ⟨d, ?_, hdg⟩, ⟨x, ?_, hx⟩⟩ <;>
    exact hperm.symm.subset (by simp)

/-- Witness of the amended C1 at length 8 with the counter generator. -/
theorem generatePassword_contains_each_kind_witness :
    InRange counterDraw ∧ (3 : Int) ≤ 8 ∧ (8 : Int) - 3 ≤ maxAlloc ∧
    (8 : Int) - 3 ≤ ((1024 : Nat) : Int) ∧
    ∃ pw s2, generatePassword 1024 counterDraw 0 8 = .ok (pw, s2) ∧
      (∃ c ∈ pw, c ∈ upperCase) ∧ (∃ c ∈ pw, c ∈ numbers) ∧ (∃ c ∈ pw, c ∈ special) :=
  ⟨counterDraw_inRange, by decide, by decide, by decide,
    generatePassword_contains_each_kind 1024 counterDraw counterDraw_inRange 0 8
      (by decide) (by decide) (by decide)⟩

/-- C2, as stated, fails at length 2^62, a valid length of at least 8: whatever
memory the machine has, `make([]byte, length-3)` panics with "makeslice: len
out of range" and no string is returned. -/
theorem generatePassword_length_fails :
    InRange counterDraw ∧ (8 : Int) ≤ 2 ^ 62 ∧ (2 : Int) ^ 62 ≤ maxInt64 ∧
    ∀ memory : Nat,
      generatePassword memory counterDraw 0 (2 ^ 62) = .error .makesliceLenOutOfRange ∧
      ¬ ∃ pw s2, generatePassword memory counterDraw 0 (2 ^ 62) = .ok (pw, s2) ∧
        (pw.length : Int) = 2 ^ 62 := by
  refine ⟨counterDraw_inRange, by decide, by decide, ?_⟩
  intro memory
  have h := generatePassword_huge memory counterDraw counterDraw_inRange 0 (2 ^ 62)
    (by decide) (by decide)
  refine ⟨h, ?_⟩
  rintro ⟨pw, s2, hok, _⟩
  rw [h] at hok
  cases hok

/-- C2, amended: for every length of at least 3 (so for every length of at
least 8) whose filler slice of `length - 3` bytes can be allocated, and every
outcome of the random draws, `generatePassword` returns a string of exactly
`length` characters. -/
theorem generatePassword_length {σ : Type} (memory : Nat) (draw : Draw σ)
    (hd : InRange draw) (s : σ) (length : Int) (h3 : 3 ≤ length)
    (hlim : length - 3 ≤ maxAlloc) (hmem : length - 3 ≤ (memory : Int)) :
    ∃ pw s2, generatePassword memory draw s length = .ok (pw, s2) ∧
      (pw.length : Int) = length := by
  obtain ⟨u, d, x, s1, pw, s2, _, _, _, _, hg, hperm⟩ :=
    generatePassword_eq memory draw hd s length h3 hlim hmem
  refine ⟨pw, s2, hg, ?_⟩
  rw [hperm.length_eq, List.length_append, drawnFiller_length]
  simp only [List.length_cons, List.length_nil]
  omega

/-- Witness of the amended C2 at length 8 with the counter generator. -/
theorem generatePassword_length_witness :
    InRange counterDraw ∧ (3 : Int) ≤ 8 ∧ (8 : Int) - 3 ≤ maxAlloc ∧
    (8 : Int) - 3 ≤ ((1024 : Nat) : Int) ∧
    ∃ pw s2, generatePassword 1024 counterDraw 0 8 = .ok (pw, s2) ∧ (pw.length : Int) = 8 :=
  ⟨counterDraw_inRange, by decide, by decide, by decide,
    generatePassword_length 1024 counterDraw counterDraw_inRange 0 8
      (by decide) (by decide) (by decide)⟩

/-- C3: for every length of at least 3 and every outcome of the random draws,
every character of a password returned by `generatePassword` belongs to one of
the four character sets; and a password is returned whenever the filler slice
of `length - 3` bytes can be allocated. -/
theorem generatePassword_chars_in_union {σ : Type} (memory : Nat) (draw : Draw σ)
    (hd : InRange draw) (s : σ) (length : Int) (h3 : 3 ≤ length)
    (hmax : length ≤ maxInt64) :
    (∀ pw s2, generatePassword memory draw s length = .ok (pw, s2) →
      ∀ c ∈ pw, c ∈ lowerCase ∨ c ∈ upperCase ∨ c ∈ numbers ∨ c ∈ special) ∧
    (length - 3 ≤ maxAlloc → length - 3 ≤ (memory : Int) →
      ∃ pw s2, generatePassword memory draw s length = .ok (pw, s2) ∧
        (pw.length : Int) = length ∧
        ∀ c ∈ pw, c ∈ lowerCase ∨ c ∈ upperCase ∨ c ∈ numbers ∨ c ∈ special) := by
  have hunion : ∀ pw s2, generatePassword memory draw s length = .ok (pw, s2) →
      ∀ c ∈ pw, c ∈ lowerCase ∨ c ∈ upperCase ∨ c ∈ numbers ∨ c ∈ special := by
    intro pw s2 hg c hc
    have := generatePassword_mem_allChars memory draw hd s length h3 hmax pw s2 hg c hc
    simpa [allChars, or_assoc] using this
  refine ⟨hunion, ?_⟩
  intro hlim hmem
  obtain ⟨u, d, x, s1, pw, s2, _, _, _, _, hg, hperm⟩ :=
    generatePassword_eq memory draw hd s length h3 hlim hmem
  refine ⟨pw, s2, hg, ?_, hunion pw s2 hg⟩
  rw [hperm.length_eq, List.length_append, drawnFiller_length]
  simp only [List.length_cons, List.length_nil]
  omega

/-- Witness of C3 at length 8 with the counter generator. -/
theorem generatePassword_chars_in_union_witness :
    InRange counterDraw ∧ (3 : Int) ≤ 8 ∧ (8 : Int) ≤ maxInt64 ∧
    (8 : Int) - 3 ≤ maxAlloc ∧ (8 : Int) - 3 ≤ ((1024 : Nat) : Int) ∧
    (∀ pw s2, generatePassword 1024 counterDraw 0 8 = .ok (pw, s2) →
      ∀ c ∈ pw, c ∈ lowerCase ∨ c ∈ upperCase ∨ c ∈ numbers ∨ c ∈ special) ∧
    ∃ pw s2, generatePassword 1024 counterDraw 0 8 = .ok (pw, s2) ∧
      (pw.length : Int) = 8 ∧
      ∀ c ∈ pw, c ∈ lowerCase ∨ c ∈ upperCase ∨ c ∈ numbers ∨ c ∈ special :=
  ⟨counterDraw_inRange, by decide, by decide, by decide, by decide,
    (generatePassword_chars_in_union 1024 counterDraw counterDraw_inRange 0 8
      (by decide) (by decide)).1,
    (generatePassword_chars_in_union 1024 counterDraw counterDraw_inRange 0 8
      (by decide) (by decide)).2 (by decide) (by decide)⟩

/-- C4, as stated, fails at length 2: with the counter generator
`generatePassword` first draws the three mandatory characters and then stops in
`make([]byte, length-3)` with the runtime panic "makeslice: len out of range";
no explicit error of a guard is produced. -/
theorem generatePassword_two_no_explicit_error :
    mandatory counterDraw 0 = .ok (['A', '1', '#'], 3) ∧
    ∀ memory : Nat,
      generatePassword memory counterDraw 0 2 = .error .makesliceLenOutOfRange ∧
      ¬ ∃ e, generatePassword memory counterDraw 0 2 = .error e ∧
        e.raisedByRuntime = false := by
  refine ⟨by rfl, ?_⟩
  intro memory
  have h : generatePassword memory counterDraw 0 2 = .error .makesliceLenOutOfRange := by rfl
  refine ⟨h, ?_⟩
  rintro ⟨e, he, hr⟩
  rw [h] at he
  cases he
  simp [Panic.raisedByRuntime] at hr

/-- C4, amended: for every 64-bit length below 3 and every generator,
`generatePassword` returns no password and fails with a panic of the Go
runtime, not with an error of its own; when the draws are in range and
`length - 3` does not wrap, that panic is "makeslice: len out of range". -/
theorem generatePassword_below_three_panics {σ : Type} (memory : Nat) (draw : Draw σ)
    (s : σ) (length : Int) (hmin : minInt64 ≤ length) (h3 : length < 3) :
    (∃ e, generatePassword memory draw s length = .error e ∧ e.raisedByRuntime = true) ∧
    (InRange draw → minInt64 + 3 ≤ length →
      generatePassword memory draw s length = .error .makesliceLenOutOfRange) := by
  refine ⟨generatePassword_small memory draw s length hmin h3, ?_⟩
  intro hd hlow
  obtain ⟨u, d, x, s1, hm, _⟩ := mandatory_eq draw hd s
  rw [generatePassword_of_mandatory_ok memory draw s length u d x s1 hm]
  have hwrap : wrapInt64 (length - 3) = length - 3 :=
    wrapInt64_of_range (by omega) (by unfold maxInt64; omega)
  have hneg : length - 3 < 0 ∨ maxAlloc < length - 3 := by omega
  simp only [hwrap, makeSlice, if_pos hneg]

/-- Witness of the amended C4 at length 2 with the counter generator. -/
theorem generatePassword_below_three_panics_witness :
    minInt64 ≤ 2 ∧ (2 : Int) < 3 ∧
    (∃ e, generatePassword 1024 counterDraw 0 2 = .error e ∧ e.raisedByRuntime = true) ∧
    (InRange counterDraw → minInt64 + 3 ≤ 2 →
      generatePassword 1024 counterDraw 0 2 = .error .makesliceLenOutOfRange) :=
  ⟨by decide, by decide,
    generatePassword_below_three_panics 1024 counterDraw 0 2 (by decide) (by decide)⟩

/-- C5: the validation loop of `main` rejects every value read that is below 8,
each time printing the question, the warning, pausing and clearing the screen,
and leaves at the first value of at least 8, which becomes the length whatever
its size; values read after it are not consumed. When every value read is below
8 the loop is still asking after as many rejections. -/
theorem validationLoop_first_valid (pre : List Int) (hpre : ∀ x ∈ pre, x < 8) :
    (∀ (v : Int) (rest : List (Option Int)), 8 ≤ v →
      validationLoop (pre.map some ++ some v :: rest) 0 [] =
        .accepted v (rejectionRounds pre.length ++ [.print promptText]) rest) ∧
    validationLoop (pre.map some) 0 [] =
      .asking (pre.getLastD 0) (rejectionRounds pre.length ++ [.print promptText]) := by
  constructor
  · intro v rest hv
    simpa using validationLoop_accepts pre hpre v hv rest 0 []
  · simpa using validationLoop_rejects pre hpre 0 []

/-- Witness of C5: the reads 5, 7, 10 give two rejections and the length 10. -/
theorem validationLoop_first_valid_witness :
    (∀ x ∈ [(5 : Int), 7], x < 8) ∧
    validationLoop [some 5, some 7, some 10] 0 [] =
      .accepted 10
        [.print promptText, .print "A senha precisa ter no mínimo 8 caracteres\n", .sleep 3,
          .print "\x1b[2J\x1b[H",
          .print promptText, .print "A senha precisa ter no mínimo 8 caracteres\n", .sleep 3,
          .print "\x1b[2J\x1b[H",
          .print promptText] [] :=
  ⟨by decide, (validationLoop_first_valid [5, 7] (by decide)).1 10 [] (by decide)⟩

/-- C6: whatever is read, `main` calls `generatePassword` only with the value
at which the loop was left, which is at least 8: the result of `main` is the
result of that call for every machine and every generator. So the precondition
`length >= 3` holds at the call and the size `length - 3` handed to `make` is
at least 5, never negative: if the call panics with "makeslice: len out of
range" the size is above the allocation limit. The values read are 64-bit
integers. -/
theorem main_call_length_valid (inputs : List (Option Int))
    (hin : ∀ v, some v ∈ inputs → v ≤ maxInt64) (L : Int)
    (hcall : mainCallArgument inputs = some L) :
    8 ≤ L ∧ 3 ≤ L ∧ wrapInt64 (L - 3) = L - 3 ∧ 5 ≤ wrapInt64 (L - 3) ∧
    ∃ out rest, validationLoop inputs 0 [] = .accepted L out rest ∧
      ∀ (memory : Nat) (σ : Type) (draw : Draw σ) (s : σ),
        (main memory draw s inputs =
          match generatePassword memory draw s L with
          | .error e => .panicked out e
          | .ok (password, s1) =>
            .returned
              (out ++ clearScreenANSI ++
                [.print (Print [.str "A sua senha é: ", .str (String.mk password)])]) s1) ∧
        (generatePassword memory draw s L = .error .makesliceLenOutOfRange →
          ¬ (L - 3 < 0) ∧ maxAlloc < L - 3) := by
  unfold mainCallArgument at hcall
  cases hloop : validationLoop inputs 0 [] with
  | asking t o => rw [hloop] at hcall; cases hcall
  | accepted t o r =>
    rw [hloop] at hcall
    injection hcall with ht
    subst ht
    obtain ⟨h8, hmem⟩ := validationLoop_accepted_inv inputs 0 [] t o r hloop
    have hmax : t ≤ maxInt64 := by
      rcases hmem with h0 | hm
      · omega
      · exact hin t hm
    have hwrap : wrapInt64 (t - 3) = t - 3 :=
      wrapInt64_of_range (by unfold minInt64; omega) (by omega)
    refine ⟨h8, by omega, hwrap, by omega, o, r, rfl, ?_⟩
    intro memory σ draw s
    refine ⟨by simp only [main, hloop], ?_⟩
    intro herr
    rcases generatePassword_error_cases memory draw s t (by omega) hmax _ herr with
      h | ⟨_, h⟩ | ⟨h, _⟩
    · cases h
    · exact ⟨by omega, h⟩
    · cases h

/-- Witness of C6: with the reads 5, 7, 10 the call is `generatePassword(10)`. -/
theorem main_call_length_valid_witness :
    (∀ v, some v ∈ [some (5 : Int), some 7, some 10] → v ≤ maxInt64) ∧
    mainCallArgument [some 5, some 7, some 10] = some 10 ∧
    ((8 : Int) ≤ 10 ∧ (3 : Int) ≤ 10 ∧ wrapInt64 (10 - 3) = 10 - 3 ∧ 5 ≤ wrapInt64 (10 - 3) ∧
    ∃ out rest, validationLoop [some 5, some 7, some 10] 0 [] = .accepted 10 out rest ∧
      ∀ (memory : Nat) (σ : Type) (draw : Draw σ) (s : σ),
        (main memory draw s [some 5, some 7, some 10] =
          match generatePassword memory draw s 10 with
          | .error e => .panicked out e
          | .ok (password, s1) =>
            .returned
              (out ++ clearScreenANSI ++
                [.print (Print [.str "A sua senha é: ", .str (String.mk password)])]) s1) ∧
        (generatePassword memory draw s 10 = .error .makesliceLenOutOfRange →
          ¬ ((10 : Int) - 3 < 0) ∧ maxAlloc < 10 - 3)) :=
  ⟨fun v hv => by
      simp only [List.mem_cons, Option.some.injEq, List.not_mem_nil, or_false] at hv
      rcases hv with rfl | rfl | rfl <;> decide,
    by decide,
    main_call_length_valid [some 5, some 7, some 10]
      (fun v hv => by
        simp only [List.mem_cons, Option.some.injEq, List.not_mem_nil, or_false] at hv
        rcases hv with rfl | rfl | rfl <;> decide)
      10 (by decide)⟩

/-- C7, as stated, fails at length 2^62: whatever memory the machine has,
`make([]byte, length-3)` panics with "makeslice: len out of range" before any
filler character is drawn, so no password is returned and none is a
permutation of the filler and the mandatory characters. -/
theorem generatePassword_perm_filler_mandatory_fails :
    InRange counterDraw ∧ (3 : Int) ≤ 2 ^ 62 ∧ (2 : Int) ^ 62 ≤ maxInt64 ∧
    ∀ memory : Nat,
      generatePassword memory counterDraw 0 (2 ^ 62) = .error .makesliceLenOutOfRange ∧
      ¬ ∃ pw s2 filler u d x, generatePassword memory counterDraw 0 (2 ^ 62) = .ok (pw, s2) ∧
        List.Perm pw (filler ++ [u, d, x]) := by
  refine ⟨counterDraw_inRange, by decide, by decide, ?_⟩
  intro memory
  have h := generatePassword_huge memory counterDraw counterDraw_inRange 0 (2 ^ 62)
    (by decide) (by decide)
  refine ⟨h, ?_⟩
  rintro ⟨pw, s2, _, _, _, _, hok, _⟩
  rw [h] at hok
  cases hok

/-- C7, amended: for every length of at least 3 whose filler slice of
`length - 3` bytes can be allocated, the password returned by
`generatePassword` is a permutation of `filler ++ [u, d, x]`, where `u`, `d`
and `x` are the uppercase letter, the digit and the special character drawn
first, and `filler` is the list of the `length - 3` characters that the
following draws select from `allChars`. -/
theorem generatePassword_perm_filler_mandatory {σ : Type} (memory : Nat) (draw : Draw σ)
    (hd : InRange draw) (s : σ) (length : Int) (h3 : 3 ≤ length)
    (hlim : length - 3 ≤ maxAlloc) (hmem : length - 3 ≤ (memory : Int)) :
    ∃ u d x s1 pw s2, mandatory draw s = .ok ([u, d, x], s1) ∧
      u ∈ upperCase ∧ d ∈ numbers ∧ x ∈ special ∧
      (((drawnFiller draw (length - 3).toNat s1).1.length : Nat) : Int) = length - 3 ∧
      (∀ c ∈ (drawnFiller draw (length - 3).toNat s1).1, c ∈ allChars) ∧
      generatePassword memory draw s length = .ok (pw, s2) ∧
      List.Perm pw ((drawnFiller draw (length - 3).toNat s1).1 ++ [u, d, x]) := by
  obtain ⟨u, d, x, s1, pw, s2, hm, hu, hdg, hx, hg, hperm⟩ :=
    generatePassword_eq memory draw hd s length h3 hlim hmem
  refine ⟨u, d, x, s1, pw, s2, hm, hu, hdg, hx, ?_, drawnFiller_mem draw hd _ _, hg, hperm⟩
  rw [drawnFiller_length]
  omega

/-- Witness of the amended C7 at length 8 with the counter generator. -/
theorem generatePassword_perm_filler_mandatory_witness :
    InRange counterDraw ∧ (3 : Int) ≤ 8 ∧ (8 : Int) - 3 ≤ maxAlloc ∧
    (8 : Int) - 3 ≤ ((1024 : Nat) : Int) ∧
    ∃ u d x s1 pw s2, mandatory counterDraw 0 = .ok ([u, d, x], s1) ∧
      u ∈ upperCase ∧ d ∈ numbers ∧ x ∈ special ∧
      (((drawnFiller counterDraw ((8 : Int) - 3).toNat s1).1.length : Nat) : Int) = 8 - 3 ∧
      (∀ c ∈ (drawnFiller counterDraw ((8 : Int) - 3).toNat s1).1, c ∈ allChars) ∧
      generatePassword 1024 counterDraw 0 8 = .ok (pw, s2) ∧
      List.Perm pw ((drawnFiller counterDraw ((8 : Int) - 3).toNat s1).1 ++ [u, d, x]) :=
  ⟨counterDraw_inRange, by decide, by decide, by decide,
    generatePassword_perm_filler_mandatory 1024 counterDraw counterDraw_inRange 0 8
      (by decide) (by decide) (by decide)⟩

/-- C8: `generatePassword(3)` returns the three mandatory characters in some
order: the result has length 3, is a permutation of the uppercase letter, the
digit and the special character drawn, holds exactly one character of each of
these three sets and none of the lowercase set, and no filler draw is made (the
shuffle starts from the generator state left by the mandatory draws). -/
theorem generatePassword_three {σ : Type} (memory : Nat) (draw : Draw σ) (hd : InRange draw)
    (s : σ) :
    ∃ u d x s1 pw s2, mandatory draw s = .ok ([u, d, x], s1) ∧
      u ∈ upperCase ∧ d ∈ numbers ∧ x ∈ special ∧
      generatePassword memory draw s 3 = .ok (pw, s2) ∧
      Shuffle draw 3 [u, d, x] s1 = .ok (pw, s2) ∧
      pw.length = 3 ∧ List.Perm pw [u, d, x] ∧
      pw.countP (fun c => decide (c ∈ upperCase)) = 1 ∧
      pw.countP (fun c => decide (c ∈ numbers)) = 1 ∧
      pw.countP (fun c => decide (c ∈ special)) = 1 ∧
      pw.countP (fun c => decide (c ∈ lowerCase)) = 0 := by
  obtain ⟨u, d, x, s1, pw, s2, hm, hu, hdg, hx, hg, hperm⟩ :=
    generatePassword_eq memory draw hd s 3 (by decide) (by decide) (by omega)
  have hperm3 : List.Perm pw [u, d, x] := by simpa [drawnFiller] using hperm
  have hsh : Shuffle draw 3 [u, d, x] s1 = .ok (pw, s2) := by
    rw [← hg, generatePassword_of_mandatory_ok memory draw s 3 u d x s1 hm,
      show wrapInt64 ((3 : Int) - 3) = 0 from rfl,
      makeSlice_ok memory 0 (by decide) (by decide) (by omega)]
    rfl
  refine ⟨u, d, x, s1, pw, s2, hm, hu, hdg, hx, hg, hsh, by simpa using hperm3.length_eq,
    hperm3, ?_, ?_, ?_, ?_⟩
  · rw [hperm3.countP_eq]
    simp [List.countP_cons, hu, (numbers_not_upperCase d hdg).1, (special_not_upperCase x hx).1]
  · rw [hperm3.countP_eq]
    simp [List.countP_cons, hdg, (upperCase_not_numbers u hu).1, (special_not_upperCase x hx).2]
  · rw [hperm3.countP_eq]
    simp [List.countP_cons, hx, (upperCase_not_numbers u hu).2, (numbers_not_upperCase d hdg).2]
  · rw [hperm3.countP_eq]
    simp [List.countP_cons, upperCase_not_lowerCase u hu, numbers_not_lowerCase d hdg,
      special_not_lowerCase x hx]

/-- Witness of C8 with the counter generator. -/
theorem generatePassword_three_witness :
    InRange counterDraw ∧
    ∃ u d x s1 pw s2, mandatory counterDraw 0 = .ok ([u, d, x], s1) ∧
      u ∈ upperCase ∧ d ∈ numbers ∧ x ∈ special ∧
      generatePassword 0 counterDraw 0 3 = .ok (pw, s2) ∧
      Shuffle counterDraw 3 [u, d, x] s1 = .ok (pw, s2) ∧
      pw.length = 3 ∧ List.Perm pw [u, d, x] ∧
      pw.countP (fun c => decide (c ∈ upperCase)) = 1 ∧
      pw.countP (fun c => decide (c ∈ numbers)) = 1 ∧
      pw.countP (fun c => decide (c ∈ special)) = 1 ∧
      pw.countP (fun c => decide (c ∈ lowerCase)) = 0 :=
  ⟨counterDraw_inRange, generatePassword_three 0 counterDraw counterDraw_inRange 0⟩

/-- C10: none of the four character sets repeats a character and no two of them
share one, so `allChars`, their concatenation, lists each of the
26 + 26 + 10 + 19 = 81 characters of the union exactly once: every character of
the union is selected by exactly one of the 81 indices, which under a uniform
index is the probability 1/81 for each of them. -/
theorem allChars_each_once :
    (lowerCase.Nodup ∧ upperCase.Nodup ∧ numbers.Nodup ∧ special.Nodup) ∧
    ((∀ c ∈ lowerCase, c ∉ upperCase ∧ c ∉ numbers ∧ c ∉ special) ∧
      (∀ c ∈ upperCase, c ∉ lowerCase ∧ c ∉ numbers ∧ c ∉ special) ∧
      (∀ c ∈ numbers, c ∉ lowerCase ∧ c ∉ upperCase ∧ c ∉ special) ∧
      (∀ c ∈ special, c ∉ lowerCase ∧ c ∉ upperCase ∧ c ∉ numbers)) ∧
    (lowerCase.length = 26 ∧ upperCase.length = 26 ∧ numbers.length = 10 ∧
      special.length = 19 ∧ allChars.length = 26 + 26 + 10 + 19 ∧ allChars.length = 81) ∧
    allChars.Nodup ∧
    (∀ c, c ∈ allChars ↔ c ∈ lowerCase ∨ c ∈ upperCase ∨ c ∈ numbers ∨ c ∈ special) ∧
    (∀ c ∈ allChars, ∃! k, k < allChars.length ∧ index allChars k = .ok c) ∧
    (∀ c ∈ allChars, allChars.count c = 1 ∧
      (allChars.count c : ℚ) / (allChars.length : ℚ) = 1 / 81) := by
  refine ⟨by decide, ⟨lowerCase_not_others, ?_, ?_, ?_⟩, by decide, allChars_nodup, ?_, ?_, ?_⟩
  · intro c hc
    exact ⟨upperCase_not_lowerCase c hc, upperCase_not_numbers c hc⟩
  · intro c hc
    exact ⟨numbers_not_lowerCase c hc, numbers_not_upperCase c hc⟩
  · intro c hc
    exact ⟨special_not_lowerCase c hc, special_not_upperCase c hc⟩
  · intro c
    simp [allChars, or_assoc]
  · intro c hc
    obtain ⟨k, hk, hkc⟩ := List.getElem_of_mem hc
    refine ⟨k, ⟨hk, by rw [index_of_lt allChars k hk, hkc]⟩, ?_⟩
    rintro j ⟨hj, hjc⟩
    rw [index_of_lt allChars j hj] at hjc
    injection hjc with hjc
    exact (List.Nodup.getElem_inj_iff allChars_nodup).mp (hjc.trans hkc.symm)
  · intro c hc
    have h1 : allChars.count c = 1 := List.count_eq_one_of_mem allChars_nodup hc
    refine ⟨h1, ?_⟩
    rw [h1, allChars_length]
    norm_num

/-- C9: the shuffle is unbiased. For every `n`, each admissible sequence of swap
choices (for `i = n-1` down to 1 an index `j` with `0 <= j <= i`) makes
`rand.Shuffle` return a permutation of the `n` positions; every permutation of
the `n` positions is produced by exactly one admissible sequence; there are
`n!` admissible sequences, as many as permutations, so uniform independent
choices make every ordering equally likely; and each element can be brought to
each position. -/
theorem Shuffle_choices_bijective (n : Nat) :
    (∀ cs, validChoices (n - 1) cs = true →
      ∃ q, Shuffle replayDraw n (List.range n) cs = .ok (q, []) ∧
        List.Perm q (List.range n)) ∧
    (∀ q, List.Perm q (List.range n) →
      ∃! cs, validChoices (n - 1) cs = true ∧
        Shuffle replayDraw n (List.range n) cs = .ok (q, [])) ∧
    ((choiceLists (n - 1)).Nodup ∧
      (∀ cs, cs ∈ choiceLists (n - 1) ↔ validChoices (n - 1) cs = true) ∧
      (choiceLists (n - 1)).length = n.factorial ∧
      (List.range n).permutations.length = n.factorial) ∧
    (∀ a b, a < n → b < n →
      ∃ cs q, validChoices (n - 1) cs = true ∧
        Shuffle replayDraw n (List.range n) cs = .ok (q, []) ∧ q[b]? = some a) := by
  have hcount : (List.range n).permutations.length = n.factorial := by
    rw [List.length_permutations, List.length_range]
  cases n with
  | zero =>
    refine ⟨?_, ?_, ⟨choiceLists_nodup 0, mem_choiceLists 0, rfl, hcount⟩, ?_⟩
    · intro cs hv
      rw [(validChoices_zero cs).mp hv]
      exact ⟨[], rfl, List.Perm.refl _⟩
    · intro q hq
      have hq0 : q = [] := by simpa using hq
      subst hq0
      refine ⟨[], ⟨rfl, rfl⟩, ?_⟩
      rintro cs ⟨hv, _⟩
      exact (validChoices_zero cs).mp hv
    · intro a b ha _
      omega
  | succ m =>
    have hlen : m < (List.range (m + 1)).length := by simp
    have hnd : (List.range (m + 1)).Nodup := List.nodup_range (m + 1)
    have hsurj : ∀ q, List.Perm q (List.range (m + 1)) →
        ∃ cs, validChoices m cs = true ∧
          shuffleFrom replayDraw m (List.range (m + 1)) cs = .ok (q, []) := by
      intro q hq
      exact shuffleFrom_replay_surj m (List.range (m + 1)) q hnd hlen hq
        (fun k hk => getElem?_eq_of_perm_of_le _ q hq k (by simp; omega))
    refine ⟨?_, ?_, ⟨choiceLists_nodup m, mem_choiceLists m, choiceLists_length m, hcount⟩, ?_⟩
    · intro cs hv
      obtain ⟨q, hq, hperm, _⟩ := shuffleFrom_replay_ok m (List.range (m + 1)) cs hlen hv
      exact ⟨q, hq, hperm⟩
    · intro q hq
      obtain ⟨cs, hv, hrun⟩ := hsurj q hq
      refine ⟨cs, ⟨hv, hrun⟩, ?_⟩
      rintro cs1 ⟨hv1, hrun1⟩
      exact shuffleFrom_replay_inj m (List.range (m + 1)) cs1 cs q hnd hlen hv1 hv hrun1 hrun
    · intro a b ha hb
      have ha1 : a < (List.range (m + 1)).length := by simpa using ha
      have hb1 : b < (List.range (m + 1)).length := by simpa using hb
      obtain ⟨cs, hv, hrun⟩ := hsurj _ (set_set_perm_self (List.range (m + 1)) a b ha1 hb1)
      refine ⟨cs, _, hv, hrun, ?_⟩
      rw [set_set_getElem? (List.range (m + 1)) a b ha1 hb1 b, if_pos rfl, List.getElem_range]

/-- Witness of C9 for three positions: the element at the last position (where
the mandatory characters are appended) can be brought to the first one. -/
theorem Shuffle_choices_bijective_witness :
    (2 < 3) ∧ (0 < 3) ∧
    ∃ cs q, validChoices (3 - 1) cs = true ∧
      Shuffle replayDraw 3 (List.range 3) cs = .ok (q, []) ∧ q[0]? = some 2 :=
  ⟨by decide, by decide, (Shuffle_choices_bijective 3).2.2.2 2 0 (by decide) (by decide)⟩

/-- C11: a failed read leaves the stored length as it was; the stored length is
below 8 whenever a read is made, so the loop answers a failed read with the
warning, the pause, the screen clearing and a new question. For every sequence
of reads the loop either is left at a value of at least 8 that was read
successfully, every read before it having been rejected, or is still asking;
reads that all fail give no panic and no accepted length. -/
theorem failed_read_is_rejected (inputs : List (Option Int)) :
    (∀ cur, Scanf none cur = cur) ∧
    (∀ rest cur out, cur < 8 →
      validationLoop (none :: rest) cur out =
        validationLoop rest cur
          (out ++ [.print promptText] ++ [.print (warningText ++ "\n"), .sleep 3] ++
            clearScreenANSI)) ∧
    ((∃ pre v rest, inputs = pre ++ some v :: rest ∧
        (∀ x ∈ pre, isRejected x = true) ∧ 8 ≤ v ∧
        validationLoop inputs 0 [] =
          .accepted v (rejectionRounds pre.length ++ [.print promptText]) rest) ∨
      ((∀ x ∈ inputs, isRejected x = true) ∧
        ∃ t, t < 8 ∧ validationLoop inputs 0 [] =
          .asking t (rejectionRounds inputs.length ++ [.print promptText]))) ∧
    ((∀ x ∈ inputs, x = none) →
      ∀ (memory : Nat) (σ : Type) (draw : Draw σ) (s : σ),
        main memory draw s inputs =
          .asking (rejectionRounds inputs.length ++ [.print promptText])) := by
  refine ⟨fun _ => rfl, ?_, ?_, ?_⟩
  · intro rest cur out hcur
    exact validationLoop_reject_step none rfl rest cur hcur out
  · rcases inputs_split inputs with h | ⟨pre, v, rest, hin, hpre, hv⟩
    · right
      obtain ⟨t, ht, hrun⟩ := validationLoop_asking_of_rejected inputs h 0 [] (by decide)
      exact ⟨h, t, ht, by simpa using hrun⟩
    · left
      refine ⟨pre, v, rest, hin, hpre, hv, ?_⟩
      rw [hin]
      simpa using validationLoop_accepts_of_rejected pre hpre v hv rest 0 [] (by decide)
  · intro hnone memory σ draw s
    have hrej : ∀ x ∈ inputs, isRejected x = true := by
      intro x hx
      rw [hnone x hx]
      rfl
    obtain ⟨t, _, hrun⟩ := validationLoop_asking_of_rejected inputs hrej 0 [] (by decide)
    simp only [main, hrun]
    simp

/-- Witness of C11: a failed read, the value 5, another failed read and the
value 10 give three rejections and the length 10; a failed read met with the
stored length 5 is answered by a rejection round. -/
theorem failed_read_is_rejected_witness :
    ((5 : Int) < 8) ∧
    validationLoop [none, some 10] 5 [] =
      validationLoop [some 10] 5
        ([] ++ [.print promptText] ++ [.print (warningText ++ "\n"), .sleep 3] ++
          clearScreenANSI) ∧
    validationLoop [none, some 5, none, some 10] 0 [] =
      .accepted 10 (rejectionRounds 3 ++ [.print promptText]) [] ∧
    main 1024 counterDraw 0 [none, none] =
      .asking (rejectionRounds 2 ++ [.print promptText]) :=
  ⟨by decide,
    (failed_read_is_rejected [none, some 5, none, some 10]).2.1 [some 10] 5 [] (by decide),
    by decide,
    (failed_read_is_rejected [none, none]).2.2.2 (by decide) 1024 Nat counterDraw 0⟩

/-- C12, evaluated on the code: in the run of `main` that reads 8, on any
machine that can provide the five filler bytes, with the generator wrapped to
log its calls and started in state 0, the only calls on the generator are the
fifteen bounded draws of `generatePassword`, the first being the draw below 26
made in the starting state; `main` makes no seeding call before or after them. -/
theorem main_generator_calls :
    ∀ memory : Nat, main (memory + 5) (recordDraw counterDraw) (0, []) [some 8] =
      .returned
        [.print promptText, .print "\x1b[2J\x1b[H", .print "A sua senha é: 1gA#ehfd"]
        (15, [(26, 0), (10, 1), (19, 2), (81, 3), (81, 4), (81, 5), (81, 6), (81, 7),
          (8, 0), (7, 2), (6, 4), (5, 1), (4, 0), (3, 1), (2, 0)]) := by
  intro memory
  have h := generatePassword_memory_irrelevant (memory + 5) 5 (recordDraw counterDraw)
    (0, []) 8 (by decide) (by decide) (by push_cast; omega) (by decide)
  have hloop : validationLoop [some 8] 0 [] = .accepted 8 [.print promptText] [] := by rfl
  simp only [main, hloop, h]
  rfl

/-- C13, as stated, fails when the first read is 2^62, which the loop accepts:
whatever memory the machine has, the call of `generatePassword` panics in
`make`, so `main` does not return and writes neither the screen-clearing
sequence nor the password after the question. -/
theorem main_success_output_fails :
    InRange counterDraw ∧ (8 : Int) ≤ 2 ^ 62 ∧ (2 : Int) ^ 62 ≤ maxInt64 ∧
    ∀ memory : Nat,
      main memory counterDraw 0 [some (2 ^ 62)] =
        .panicked [.print promptText] .makesliceLenOutOfRange ∧
      ¬ ∃ out t, main memory counterDraw 0 [some (2 ^ 62)] = .returned out t := by
  refine ⟨counterDraw_inRange, by decide, by decide, ?_⟩
  intro memory
  have hloop : validationLoop [some (2 ^ 62)] 0 [] =
      .accepted (2 ^ 62) [.print promptText] [] := by rfl
  have h := main_of_error memory counterDraw 0 [some (2 ^ 62)] (2 ^ 62) _ [] _ hloop
    (generatePassword_huge memory counterDraw counterDraw_inRange 0 (2 ^ 62)
      (by decide) (by decide))
  refine ⟨h, ?_⟩
  rintro ⟨out, t, hret⟩
  rw [h] at hret
  cases hret

/-- C13, amended: when the loop is left at a value `v` of at least 8, after any
number of rejected reads, and the filler slice of `v - 3` bytes can be
allocated, `main` returns, and what it writes after the last question is the
screen-clearing sequence and then one text, the label "A sua senha é: "
followed at once by the password returned by `generatePassword(v)`; the
password holds no line break, so nothing follows it. -/
theorem main_success_output {σ : Type} (memory : Nat) (draw : Draw σ) (hd : InRange draw)
    (s : σ) (pre : List (Option Int)) (hpre : ∀ x ∈ pre, isRejected x = true) (v : Int)
    (hv : 8 ≤ v) (hlim : v - 3 ≤ maxAlloc) (hmem : v - 3 ≤ (memory : Int))
    (rest : List (Option Int)) :
    ∃ pw t, generatePassword memory draw s v = .ok (pw, t) ∧
      main memory draw s (pre ++ some v :: rest) =
        .returned
          (rejectionRounds pre.length ++ [.print promptText] ++
            [.print "\x1b[2J\x1b[H", .print ("A sua senha é: " ++ String.mk pw)]) t ∧
      Print [.str "A sua senha é: ", .str (String.mk pw)] =
        "A sua senha é: " ++ String.mk pw ∧
      ("A sua senha é: " ++ String.mk pw).data = "A sua senha é: ".data ++ pw ∧
      (∀ c ∈ pw, c ≠ Char.ofNat 10 ∧ c ≠ ' ') := by
  have hmax : v ≤ maxInt64 := by
    have := maxAlloc_lt_maxInt64
    omega
  obtain ⟨_, _, _, _, pw, t, _, _, _, _, hg, _⟩ :=
    generatePassword_eq memory draw hd s v (by omega) hlim hmem
  have hloop := validationLoop_accepts_of_rejected pre hpre v hv rest 0 [] (by decide)
  refine ⟨pw, t, hg, ?_, Print_two_strings _ _, by simp, ?_⟩
  · rw [main_of_accepted memory draw s _ v _ rest pw t hloop hg]
    simp
  · intro c hc
    have hmem := generatePassword_mem_allChars memory draw hd s v (by omega) hmax pw t hg c hc
    constructor
    · rintro rfl
      revert hmem
      decide
    · rintro rfl
      revert hmem
      decide

/-- Witness of the amended C13: a failed read, the value 5 and then the value
8, with the counter generator. -/
theorem main_success_output_witness :
    InRange counterDraw ∧ (∀ x ∈ [none, some (5 : Int)], isRejected x = true) ∧
    (8 : Int) ≤ 8 ∧ (8 : Int) - 3 ≤ maxAlloc ∧ (8 : Int) - 3 ≤ ((1024 : Nat) : Int) ∧
    ∃ pw t, generatePassword 1024 counterDraw 0 8 = .ok (pw, t) ∧
      main 1024 counterDraw 0 ([none, some 5] ++ some 8 :: []) =
        .returned
          (rejectionRounds [none, some (5 : Int)].length ++ [.print promptText] ++
            [.print "\x1b[2J\x1b[H", .print ("A sua senha é: " ++ String.mk pw)]) t ∧
      Print [.str "A sua senha é: ", .str (String.mk pw)] =
        "A sua senha é: " ++ String.mk pw ∧
      ("A sua senha é: " ++ String.mk pw).data = "A sua senha é: ".data ++ pw ∧
      (∀ c ∈ pw, c ≠ Char.ofNat 10 ∧ c ≠ ' ') :=
  ⟨counterDraw_inRange, by decide, by decide, by decide, by decide,
    main_success_output 1024 counterDraw counterDraw_inRange 0 [none, some 5] (by decide) 8
      (by decide) (by decide) (by decide) []⟩

/-- C14, as stated, fails at length 2^62: with draws in range, whatever memory
the machine has, `generatePassword` does not return but panics, in
`make([]byte, length-3)`, with "makeslice: len out of range". -/
theorem generatePassword_no_panic_fails :
    InRange counterDraw ∧ (3 : Int) ≤ 2 ^ 62 ∧ (2 : Int) ^ 62 ≤ maxInt64 ∧
    ∀ memory : Nat,
      generatePassword memory counterDraw 0 (2 ^ 62) = .error .makesliceLenOutOfRange ∧
      ¬ (∀ e, generatePassword memory counterDraw 0 (2 ^ 62) ≠ .error e) ∧
      ¬ ∃ pw t, generatePassword memory counterDraw 0 (2 ^ 62) = .ok (pw, t) := by
  refine ⟨counterDraw_inRange, by decide, by decide, ?_⟩
  intro memory
  have h := generatePassword_huge memory counterDraw counterDraw_inRange 0 (2 ^ 62)
    (by decide) (by decide)
  refine ⟨h, fun hall => hall _ h, ?_⟩
  rintro ⟨pw, t, hok⟩
  rw [h] at hok
  cases hok

/-- C14, amended: for every length of at least 3 and every generator whose
bounded draws lie in `[0, n)`, `generatePassword` never indexes out of bounds:
no run ends in "index out of range", and the only failure possible is that of
the allocation `make([]byte, length-3)`. When that slice can be allocated the
function returns without a panic, every draw it makes has a result below its
bound, and the bounds are the lengths of `upperCase`, `numbers`, `special`,
then `len(allChars)` for each filler position, then `i + 1` for each loop
variable `i` of the shuffle, so every index and every pair of swapped positions
is in range. An index is rejected by the model exactly when it is not below the
length. -/
theorem generatePassword_no_panic {σ : Type} (memory : Nat) (draw : Draw σ)
    (hd : InRange draw) (s : σ) (length : Int) (h3 : 3 ≤ length)
    (hmax : length ≤ maxInt64) :
    generatePassword memory draw s length ≠ .error .indexOutOfRange ∧
    (∀ e, generatePassword memory draw s length = .error e →
      (e = .makesliceLenOutOfRange ∧ maxAlloc < length - 3) ∨
      (e = .outOfMemory ∧ length - 3 ≤ maxAlloc ∧ (memory : Int) < length - 3)) ∧
    (length - 3 ≤ maxAlloc → length - 3 ≤ (memory : Int) →
      (∃ pw t, generatePassword memory draw s length = .ok (pw, t)) ∧
      (∀ e, generatePassword memory draw s length ≠ .error e) ∧
      (∃ pw t log,
        generatePassword memory (recordDraw draw) (s, []) length = .ok (pw, (t, log)) ∧
        log.map Prod.fst = requestedBounds length.toNat ∧
        (∀ call ∈ log, call.2 < call.1) ∧
        (∀ n ∈ shuffleBounds (length.toNat - 1), n ≤ pw.length))) ∧
    (∀ (l : List Char) (k : Nat), index l k = .error .indexOutOfRange ↔ l.length ≤ k) := by
  have herr := generatePassword_error_of_inRange memory draw hd s length h3 hmax
  refine ⟨?_, herr, ?_, ?_⟩
  · intro h
    rcases herr _ h with ⟨h1, _⟩ | ⟨h1, _⟩ <;> cases h1
  · intro hlim hmem
    obtain ⟨_, _, _, _, pw, t, _, _, _, _, hg, hperm⟩ :=
      generatePassword_eq memory draw hd s length h3 hlim hmem
    have hlen : pw.length = length.toNat := by
      rw [hperm.length_eq, List.length_append, drawnFiller_length]
      simp only [List.length_cons, List.length_nil]
      omega
    refine ⟨⟨pw, t, hg⟩, ?_,
      ⟨pw, t, _, generatePassword_record memory draw hd s length h3 hmax pw t hg, ?_, ?_, ?_⟩⟩
    · intro e he
      rw [hg] at he
      cases he
    · exact List.map_fst_zip _ _ (by rw [drawSequence_length])
    · exact drawSequence_lt draw hd _ (requestedBounds_pos _) s
    · intro n hn
      have := shuffleBounds_mem _ n hn
      omega
  · intro l k
    constructor
    · intro h
      by_contra hlt
      rw [index_of_lt l k (by omega)] at h
      cases h
    · exact index_of_le l k

/-- Witness of the amended C14 at length 8 with the counter generator. -/
theorem generatePassword_no_panic_witness :
    InRange counterDraw ∧ (3 : Int) ≤ 8 ∧ (8 : Int) ≤ maxInt64 ∧
    (8 : Int) - 3 ≤ maxAlloc ∧ (8 : Int) - 3 ≤ ((1024 : Nat) : Int) ∧
    generatePassword 1024 counterDraw 0 8 ≠ .error .indexOutOfRange ∧
    ((∃ pw t, generatePassword 1024 counterDraw 0 8 = .ok (pw, t)) ∧
      (∀ e, generatePassword 1024 counterDraw 0 8 ≠ .error e) ∧
      (∃ pw t log,
        generatePassword 1024 (recordDraw counterDraw) (0, []) 8 = .ok (pw, (t, log)) ∧
        log.map Prod.fst = requestedBounds (8 : Int).toNat ∧
        (∀ call ∈ log, call.2 < call.1) ∧
        (∀ n ∈ shuffleBounds ((8 : Int).toNat - 1), n ≤ pw.length))) :=
  ⟨counterDraw_inRange, by decide, by decide, by decide, by decide,
    (generatePassword_no_panic 1024 counterDraw counterDraw_inRange 0 8
      (by decide) (by decide)).1,
    (generatePassword_no_panic 1024 counterDraw counterDraw_inRange 0 8
      (by decide) (by decide)).2.2.1 (by decide) (by decide)⟩

/-- C15, as stated, fails at length 2^62: the three mandatory draws are made,
then `make([]byte, length-3)` panics whatever memory the machine has, so the
function returns no password and makes none of the filler draws and swap
choices. -/
theorem generatePassword_deterministic_fails :
    InRange counterDraw ∧ (3 : Int) ≤ 2 ^ 62 ∧ (2 : Int) ^ 62 ≤ maxInt64 ∧
    mandatory (recordDraw counterDraw) (0, []) =
      .ok (['A', '1', '#'], (3, [(26, 0), (10, 1), (19, 2)])) ∧
    ∀ memory : Nat,
      generatePassword memory (recordDraw counterDraw) (0, []) (2 ^ 62) =
        .error .makesliceLenOutOfRange ∧
      generatePassword memory counterDraw 0 (2 ^ 62) = .error .makesliceLenOutOfRange ∧
      ¬ ∃ pw t, generatePassword memory counterDraw 0 (2 ^ 62) = .ok (pw, t) ∧
        t = (drawSequence counterDraw (requestedBounds ((2 : Int) ^ 62).toNat) 0).2 := by
  refine ⟨counterDraw_inRange, by decide, by decide, by rfl, ?_⟩
  intro memory
  have h := generatePassword_huge memory counterDraw counterDraw_inRange 0 (2 ^ 62)
    (by decide) (by decide)
  refine ⟨generatePassword_huge memory (recordDraw counterDraw)
    (recordDraw_inRange counterDraw counterDraw_inRange) (0, []) (2 ^ 62)
    (by decide) (by decide), h, ?_⟩
  rintro ⟨pw, t, hok, _⟩
  rw [h] at hok
  cases hok

/-- C15, amended: for every length of at least 3 whose filler slice of
`length - 3` bytes can be allocated, `generatePassword` depends on the
generator only through the numbers drawn. Its draws are, in this order, the 3
mandatory draws, `length - 3` filler draws below `len(allChars)` and the
`length - 1` swap choices with bounds `length, ..., 2`; the generator is left
in the state reached by exactly these draws; replaying the numbers drawn gives
the same password and uses up exactly these numbers; and any other run with the
same length in which the same numbers are drawn returns the same password. -/
theorem generatePassword_deterministic {σ : Type} (memory : Nat) (draw : Draw σ)
    (hd : InRange draw) (s : σ) (length : Int) (h3 : 3 ≤ length)
    (hlim : length - 3 ≤ maxAlloc) (hmem : length - 3 ≤ (memory : Int)) :
    ∃ pw t, generatePassword memory draw s length = .ok (pw, t) ∧
      t = (drawSequence draw (requestedBounds length.toNat) s).2 ∧
      (requestedBounds length.toNat =
          [26, 10, 19] ++ List.replicate (length.toNat - 3) 81 ++
            shuffleBounds (length.toNat - 1) ∧
        (shuffleBounds (length.toNat - 1)).length = length.toNat - 1 ∧
        (shuffleBounds (length.toNat - 1)).head? = some length.toNat) ∧
      (∃ log,
        generatePassword memory (recordDraw draw) (s, []) length = .ok (pw, (t, log)) ∧
        log.map Prod.fst = requestedBounds length.toNat ∧
        log.map Prod.snd = (drawSequence draw (requestedBounds length.toNat) s).1) ∧
      generatePassword memory replayDraw
        (drawSequence draw (requestedBounds length.toNat) s).1 length = .ok (pw, []) ∧
      ∀ (memory2 : Nat) (σ2 : Type) (draw2 : Draw σ2) (s2 : σ2) (pw2 : List Char) (t2 : σ2),
        generatePassword memory2 draw2 s2 length = .ok (pw2, t2) →
        (drawSequence draw2 (requestedBounds length.toNat) s2).1 =
          (drawSequence draw (requestedBounds length.toNat) s).1 →
        pw2 = pw := by
  have hmax : length ≤ maxInt64 := by
    have := maxAlloc_lt_maxInt64
    omega
  obtain ⟨_, _, _, _, pw, t, _, _, _, _, hg, _⟩ :=
    generatePassword_eq memory draw hd s length h3 hlim hmem
  obtain ⟨ht, hrep⟩ := generatePassword_trace memory draw s length h3 hmax pw t hg
  have hrep0 := hrep []
  rw [List.append_nil] at hrep0
  refine ⟨pw, t, hg, ht, ⟨?_, shuffleBounds_length _, ?_⟩,
    ⟨_, generatePassword_record memory draw hd s length h3 hmax pw t hg,
      List.map_fst_zip _ _ (by rw [drawSequence_length]),
      List.map_snd_zip _ _ (by rw [drawSequence_length])⟩, hrep0, ?_⟩
  · simp only [requestedBounds, upperCase_length, numbers_length, special_length,
      allChars_length]
  · obtain ⟨k, hk⟩ : ∃ k, length.toNat - 1 = k + 1 := ⟨length.toNat - 2, by omega⟩
    rw [hk]
    simp only [shuffleBounds, List.head?_cons]
    congr 1
    omega
  · intro memory2 σ2 draw2 s2 pw2 t2 hg2 hsame
    obtain ⟨_, hmem2⟩ := generatePassword_ok_alloc memory2 draw2 s2 length h3 hmax pw2 t2 hg2
    obtain ⟨_, hrep2⟩ := generatePassword_trace memory2 draw2 s2 length h3 hmax pw2 t2 hg2
    have e := hrep2 []
    rw [List.append_nil, hsame,
      generatePassword_memory_irrelevant memory2 memory replayDraw _ length h3 hlim hmem2 hmem,
      hrep0] at e
    injection e with e
    injection e with e _
    exact e.symm

/-- Witness of the amended C15 at length 8 with the counter generator. -/
theorem generatePassword_deterministic_witness :
    InRange counterDraw ∧ (3 : Int) ≤ 8 ∧ (8 : Int) - 3 ≤ maxAlloc ∧
    (8 : Int) - 3 ≤ ((1024 : Nat) : Int) ∧
    ∃ pw t, generatePassword 1024 counterDraw 0 8 = .ok (pw, t) ∧
      t = (drawSequence counterDraw (requestedBounds (8 : Int).toNat) 0).2 ∧
      (requestedBounds (8 : Int).toNat =
          [26, 10, 19] ++ List.replicate ((8 : Int).toNat - 3) 81 ++
            shuffleBounds ((8 : Int).toNat - 1) ∧
        (shuffleBounds ((8 : Int).toNat - 1)).length = (8 : Int).toNat - 1 ∧
        (shuffleBounds ((8 : Int).toNat - 1)).head? = some (8 : Int).toNat) ∧
      (∃ log,
        generatePassword 1024 (recordDraw counterDraw) (0, []) 8 = .ok (pw, (t, log)) ∧
        log.map Prod.fst = requestedBounds (8 : Int).toNat ∧
        log.map Prod.snd = (drawSequence counterDraw (requestedBounds (8 : Int).toNat) 0).1) ∧
      generatePassword 1024 replayDraw
        (drawSequence counterDraw (requestedBounds (8 : Int).toNat) 0).1 8 = .ok (pw, []) ∧
      ∀ (memory2 : Nat) (σ2 : Type) (draw2 : Draw σ2) (s2 : σ2) (pw2 : List Char) (t2 : σ2),
        generatePassword memory2 draw2 s2 8 = .ok (pw2, t2) →
        (drawSequence draw2 (requestedBounds (8 : Int).toNat) s2).1 =
          (drawSequence counterDraw (requestedBounds (8 : Int).toNat) 0).1 →
        pw2 = pw :=
  ⟨counterDraw_inRange, by decide, by decide, by decide,
    generatePassword_deterministic 1024 counterDraw counterDraw_inRange 0 8
      (by decide) (by decide) (by decide)⟩

end GeradorSenha
